import Mathlib

/-!
The `httpclient` request builder.

A shallow embedding of `client.go` and `client_tls.go`.

* The builder `Client` is a record; every method of `*Client` becomes a function that
  takes the state before the call and returns the state after it.  A method that can
  dereference a nil pointer or write to a nil map returns `Except GoPanic Client`.
* Nil-able Go values (maps, slices, pointers, `error`) are `Option`s, `none` being `nil`.
* A Go `map[string]string` is an association list.  Go leaves the order of `range` over a
  map unspecified; the order of the list stands for the order in which one run iterates.
* The Go standard library (`net/url`, `encoding/json`, `io/ioutil`, `crypto/tls`,
  `crypto/x509`, `fmt`, the HTTP transport) is outside the repository.  Its functions are
  the fields of `Env`; theorems hold for every `Env`.  The two small pure library
  functions whose exact behaviour matters for the claims, `validMethod` and
  `CanonicalMIMEHeaderKey`, are written out.
-/

namespace Httpclient

/-! ## Values -/

/-- A Go `error` value, identified by the text its `Error()` method returns. -/
structure GoError where
  text : String
deriving DecidableEq, Repr

/-- A Go `[]byte` that is not nil. -/
abbrev Bytes := List UInt8

/-- The conversion `[]byte(s)` of a Go string. -/
def stringBytes (s : String) : Bytes := s.toUTF8.data.toList

/-- A non-nil Go `map[string]string`, as an association list with one entry per key. -/
abbrev GoMap := List (String × String)

/-- The map read `m[k]` together with its presence flag. -/
def GoMap.get (m : GoMap) (k : String) : Option String :=
  match m with
  | [] => none
  | (k1, v1) :: rest => if k1 = k then some v1 else GoMap.get rest k

/-- The map write `m[k] = v`. -/
def GoMap.set (m : GoMap) (k v : String) : GoMap :=
  match m with
  | [] => [(k, v)]
  | (k1, v1) :: rest => if k1 = k then (k, v) :: rest else (k1, v1) :: GoMap.set rest k v

/-- The entries a `range` loop visits; a nil map has none. -/
def mapEntries (m : Option GoMap) : List (String × String) :=
  match m with
  | none => []
  | some es => es

/-- The builtin `len` of a possibly nil map. -/
def mapLen (m : Option GoMap) : Nat := (mapEntries m).length

/-- The shape shared by `url.Values` and `http.Header`: `map[string][]string`. -/
abbrev MultiMap := List (String × List String)

/-- The read `m[k]`: the values stored under `k`, nil when the key is absent. -/
def MultiMap.get (m : MultiMap) (k : String) : List String :=
  match m with
  | [] => []
  | (k1, vs) :: rest => if k1 = k then vs else MultiMap.get rest k

/-- Whether the map has an entry for `k` (the second result of `m[k]`). -/
def MultiMap.has (m : MultiMap) (k : String) : Bool :=
  match m with
  | [] => false
  | (k1, _) :: rest => if k1 = k then true else MultiMap.has rest k

/-- Library `url.Values.Add`: `v[key] = append(v[key], value)`. -/
def MultiMap.add (m : MultiMap) (k v : String) : MultiMap :=
  match m with
  | [] => [(k, [v])]
  | (k1, vs) :: rest =>
    if k1 = k then (k1, vs ++ [v]) :: rest else (k1, vs) :: MultiMap.add rest k v

/-- The map write `m[k] = []string{v}`. -/
def MultiMap.put (m : MultiMap) (k v : String) : MultiMap :=
  match m with
  | [] => [(k, [v])]
  | (k1, vs) :: rest =>
    if k1 = k then (k1, [v]) :: rest else (k1, vs) :: MultiMap.put rest k v

/-- Library `httpguts.IsTokenRune`: the characters of an HTTP token. -/
def isTokenRune (ch : Char) : Bool :=
  ch.isAlphanum || "!#$%&*+-.^_|~".data.contains ch || ch = Char.ofNat 39 || ch = Char.ofNat 96

/-- Library `net/http.validMethod`: non-empty and made of token characters only. -/
def validMethod (method : String) : Bool :=
  0 < method.length && method.data.all isTokenRune

/-- The rewriting loop of library `textproto.canonicalMIMEHeaderKey`: upper case for the
first letter and for each letter after a dash, lower case for every other letter. -/
def canonLoop (upper : Bool) (cs : List Char) : List Char :=
  match cs with
  | [] => []
  | ch :: rest =>
    let ch1 :=
      if upper && ch.isLower then ch.toUpper
      else if !upper && ch.isUpper then ch.toLower
      else ch
    ch1 :: canonLoop (ch1 = Char.ofNat 45) rest

/-- Library `textproto.CanonicalMIMEHeaderKey`: a key holding a byte that is not a header
field byte (a space, a non-ASCII character) is returned unchanged. -/
def CanonicalMIMEHeaderKey (s : String) : String :=
  if s.data.all isTokenRune then String.mk (canonLoop true s.data) else s

/-- Library `http.Header.Set`. -/
def headerSet (h : MultiMap) (key value : String) : MultiMap :=
  MultiMap.put h (CanonicalMIMEHeaderKey key) value

/-- Library `http.Header.Get`: the first value under the canonical key, or `""`. -/
def headerGet (h : MultiMap) (key : String) : String :=
  (MultiMap.get h (CanonicalMIMEHeaderKey key)).headD ""

/-! ## The data model of `client.go` -/

def POST : String := "POST"
def GET : String := "GET"
def HEAD : String := "HEAD"
def PUT : String := "PUT"
def DELETE : String := "DELETE"
def PATCH : String := "PATCH"
def OPTIONS : String := "OPTIONS"

def HeaderContentType : String := "Content-Type"

/-- A `time.Duration`, in nanoseconds. -/
abbrev Duration := Int

def Second : Duration := 1000000000

def DefaultTimeout : Duration := 60 * Second
def DefaultDialTimeout : Duration := 30 * Second
def DefaultKeepAliveTimeout : Duration := 30 * Second
def DefaultIdleConnTimeout : Duration := 90 * Second
def DefaultTLSHandshakeTimeout : Duration := 10 * Second
def DefaultExpectContinueTimeout : Duration := 1 * Second

/-- An `x509.Certificate`, identified by its encoded form. -/
structure X509Cert where
  raw : Bytes
deriving DecidableEq, Repr

/-- A `tls.Certificate`: a certificate chain with its private key. -/
structure TlsCert where
  chain : Bytes
  key : Bytes
deriving DecidableEq, Repr

/-- An `x509.CertPool` that is not nil. -/
abbrev CertPool := List X509Cert

/-- The fields of `tls.Config` the builder reads or writes, and `serverName` standing
for the fields it never touches. -/
structure TlsConfig where
  insecureSkipVerify : Bool
  rootCAs : Option CertPool
  certificates : List TlsCert
  serverName : String
deriving DecidableEq, Repr

/-- The zero value `new(tls.Config)`. -/
def TlsConfig.zero : TlsConfig :=
  { insecureSkipVerify := false, rootCAs := none, certificates := [], serverName := "" }

/-- A `net.Dialer` as `makeClient` configures it. -/
structure Dialer where
  timeout : Duration
  keepAlive : Duration
deriving DecidableEq, Repr

/-- The fields of `http.Transport` the builder sets. -/
structure Transport where
  proxyFromEnvironment : Bool
  idleConnTimeout : Duration
  tlsHandshakeTimeout : Duration
  expectContinueTimeout : Duration
  tlsClientConfig : Option TlsConfig
  dialContext : Option Dialer
deriving DecidableEq, Repr

/-- The builder: `type Client struct` of `client.go`. -/
structure Client where
  url : String
  queries : Option GoMap
  method : String
  header : Option GoMap
  contentType : String
  body : Option Bytes
  transport : Option Transport
  timeout : Duration
  dialTimeout : Duration
  keepAliveTimeout : Duration
  err : Option GoError
deriving DecidableEq, Repr

/-- The run-time panics a call on a builder can raise. -/
inductive GoPanic
  | nilMapWrite
  | nilTransport
  | nilTlsConfig
  | nilCertPool
  | nilCertificate
deriving DecidableEq, Repr

/-- A parsed `url.URL`: everything before the query, the raw query, the fragment. -/
structure URL where
  base : String
  rawQuery : String
  fragment : String
deriving DecidableEq, Repr

/-- Values of a dynamic type other than `string` and `[]byte` passed to `Body`. -/
inductive Dyn
  | null
  | int (n : Int)
  | intSlice (ns : List Int)
  | stringMap (m : GoMap)
  | chan
deriving DecidableEq, Repr

/-- The argument of `Body`, by dynamic type. -/
inductive GoValue
  | str (s : String)
  | bytes (b : Option Bytes)
  | other (d : Dyn)
deriving DecidableEq, Repr

/-- An `http.Request` as `http.NewRequest` and `makeRequest` fill it. -/
structure Request where
  method : String
  url : URL
  header : MultiMap
  body : Bytes
deriving DecidableEq, Repr

/-- An `http.Response`. -/
structure Response where
  statusCode : Nat
  body : Bytes
deriving DecidableEq, Repr

/-- The `http.Client` value `makeClient` returns. -/
structure HttpClient where
  transport : Option Transport
  timeout : Duration
deriving DecidableEq, Repr

/-- The standard library and the outside world, as the builder calls them. -/
structure Env where
  /-- Function `url.Parse`. -/
  urlParse : String → Except GoError URL
  /-- Method `(*url.URL).Query`: the parsed raw query. -/
  urlQuery : URL → MultiMap
  /-- Method `url.Values.Encode`. -/
  valuesEncode : MultiMap → String
  /-- Method `(*url.URL).String`. -/
  urlString : URL → String
  /-- The host clean-up `removeEmptyPort` that `http.NewRequest` applies to the parsed URL. -/
  removeEmptyPort : URL → URL
  /-- Function `json.Marshal`, with both of its results. -/
  jsonMarshal : Dyn → Option Bytes × Option GoError
  /-- Function `ioutil.ReadFile`. -/
  readFile : String → Except GoError Bytes
  /-- Function `tls.X509KeyPair`. -/
  x509KeyPair : Bytes → Bytes → Except GoError TlsCert
  /-- Method `(*x509.CertPool).AppendCertsFromPEM`. -/
  appendCertsFromPEM : CertPool → Bytes → CertPool
  /-- Method `(*x509.CertPool).AddCert` on a certificate that is not nil. -/
  poolAddCert : CertPool → X509Cert → CertPool
  /-- Verb `%q` of `fmt` applied to an error. -/
  quote : GoError → String
  /-- Verb `%v` of `fmt` applied to the header map. -/
  fmtMap : Option GoMap → String
  /-- Verb `%s` of `fmt` applied to the body. -/
  fmtBytes : Option Bytes → String
  /-- Method `(*http.Client).Do`: the network. -/
  send : HttpClient → Request → Option Response × Option GoError

/-! ## `client.go` -/

/-- Method `keepOriginErr`: the first error is kept. -/
def Client.keepOriginErr (c : Client) (err : Option GoError) : Client :=
  if c.err = none then { c with err := err } else c

/-- The query values `getFullUrl` builds: the loop `query.Add(k, v)` over `c.queries`,
starting from the query of the parsed base url. -/
def mergeQueries (query : MultiMap) (entries : List (String × String)) : MultiMap :=
  entries.foldl (fun q kv => MultiMap.add q kv.1 kv.2) query

/-- Method `getFullUrl`: the state after the call and the returned string. -/
def Client.getFullUrl (env : Env) (c : Client) : Client × String :=
  match env.urlParse c.url with
  | .error err => (c.keepOriginErr (some err), err.text)
  | .ok u =>
    let query := mergeQueries (env.urlQuery u) (mapEntries c.queries)
    (c, env.urlString { u with rawQuery := env.valuesEncode query })

/-- Method `DebugString`: the state after the call and the returned string. -/
def Client.DebugString (env : Env) (c : Client) : Client × String :=
  let r := c.getFullUrl env
  (r.1, "[url]: " ++ r.2 ++ "\n" ++
    "[method]: " ++ c.method ++ "\n" ++
    "[header]: " ++ env.fmtMap c.header ++ "\n" ++
    "[content type]:" ++ c.contentType ++ "\n" ++
    "[body]:" ++ env.fmtBytes c.body ++ "\n")

/-- Constructor `New`. -/
def New : Client :=
  { url := ""
    queries := none
    method := ""
    header := some []
    contentType := ""
    body := none
    transport := some
      { proxyFromEnvironment := true
        idleConnTimeout := DefaultIdleConnTimeout
        tlsHandshakeTimeout := DefaultTLSHandshakeTimeout
        expectContinueTimeout := DefaultExpectContinueTimeout
        tlsClientConfig := some { TlsConfig.zero with insecureSkipVerify := true }
        dialContext := none }
    timeout := DefaultTimeout
    dialTimeout := DefaultDialTimeout
    keepAliveTimeout := DefaultKeepAliveTimeout
    err := none }

/-- Method `ReNew`. -/
def Client.ReNew (c : Client) (method url : String) : Client :=
  { c with url := url, method := method, header := some [], contentType := "",
           body := none, err := none }

def Client.Get (c : Client) (url : String) : Client := c.ReNew GET url

def Client.Post (c : Client) (url : String) : Client := c.ReNew POST url

def Client.Put (c : Client) (url : String) : Client := c.ReNew PUT url

def Client.Head (c : Client) (url : String) : Client := c.ReNew HEAD url

def Client.Delete (c : Client) (url : String) : Client := c.ReNew DELETE url

def Client.Patch (c : Client) (url : String) : Client := c.ReNew PATCH url

def Client.Options (c : Client) (url : String) : Client := c.ReNew OPTIONS url

/-- Method `AppendQuery`. -/
def Client.AppendQuery (c : Client) (key value : String) : Client :=
  match c.queries with
  | none => { c with queries := some [(key, value)] }
  | some q => { c with queries := some (GoMap.set q key value) }

/-- The loop `c.queries[k] = v` of `AppendQueries` over the entries of its argument. -/
def setAll (q : GoMap) (entries : List (String × String)) : GoMap :=
  entries.foldl (fun m kv => GoMap.set m kv.1 kv.2) q

/-- Method `AppendQueries`. -/
def Client.AppendQueries (c : Client) (queries : Option GoMap) : Client :=
  if mapLen queries = 0 then c
  else
    let q := match c.queries with
      | none => []
      | some q0 => q0
    { c with queries := some (setAll q (mapEntries queries)) }

/-- Method `ContentType`. -/
def Client.ContentType (c : Client) (contentType : String) : Client :=
  { c with contentType := contentType }

/-- Method `Header`; the write `c.header[k] = v` panics on a nil map. -/
def Client.Header (c : Client) (k v : String) : Except GoPanic Client :=
  if k = "" ∨ v = "" then
    .ok (c.keepOriginErr (some ⟨"invalid header, key or value is empty"⟩))
  else
    match c.header with
    | none => .error .nilMapWrite
    | some h => .ok { c with header := some (GoMap.set h k v) }

/-- Method `Body`. -/
def Client.Body (env : Env) (c : Client) (body : GoValue) : Client :=
  match body with
  | .str value => { c with body := some (stringBytes value) }
  | .bytes value => { c with body := value }
  | .other d =>
    let r := env.jsonMarshal d
    Client.keepOriginErr { c with body := r.1 } r.2

def Client.Timeout (c : Client) (timeout : Duration) : Client :=
  { c with timeout := timeout }

def Client.DialTimeout (c : Client) (timeout : Duration) : Client :=
  { c with dialTimeout := timeout }

def Client.KeepAliveTimeout (c : Client) (timeout : Duration) : Client :=
  { c with keepAliveTimeout := timeout }

/-- A write through the pointer `c.transport`; it panics when the pointer is nil. -/
def Client.onTransport (c : Client) (f : Transport → Transport) : Except GoPanic Client :=
  match c.transport with
  | none => .error .nilTransport
  | some t => .ok { c with transport := some (f t) }

def Client.IdleConnTimeout (c : Client) (timeout : Duration) : Except GoPanic Client :=
  c.onTransport (fun t => { t with idleConnTimeout := timeout })

def Client.TLSHandshakeTimeout (c : Client) (timeout : Duration) : Except GoPanic Client :=
  c.onTransport (fun t => { t with tlsHandshakeTimeout := timeout })

def Client.ExpectContinueTimeout (c : Client) (timeout : Duration) : Except GoPanic Client :=
  c.onTransport (fun t => { t with expectContinueTimeout := timeout })

/-- Library `http.NewRequest` on a `*bytes.Reader` body. -/
def newRequest (env : Env) (method url : String) (body : Bytes) : Except GoError Request :=
  let method1 := if method = "" then "GET" else method
  if !validMethod method1 then
    .error ⟨"net/http: invalid method " ++ env.quote ⟨method1⟩⟩
  else
    match env.urlParse url with
    | .error err => .error err
    | .ok u => .ok { method := method1, url := env.removeEmptyPort u, header := [], body := body }

/-- The loop `req.Header.Set(k, v)` of `makeRequest` over the header map. -/
def setHeaders (h : MultiMap) (entries : List (String × String)) : MultiMap :=
  entries.foldl (fun m kv => headerSet m kv.1 kv.2) h

/-- Method `makeRequest`: the state after the call (`getFullUrl` may record an error) and
the two results. -/
def Client.makeRequest (env : Env) (c : Client) : Client × Except GoError Request :=
  let r := c.getFullUrl env
  match newRequest env c.method r.2 (c.body.getD []) with
  | .error err => (r.1, .error err)
  | .ok req =>
    let req1 := { req with header := headerSet req.header HeaderContentType c.contentType }
    (r.1, .ok { req1 with header := setHeaders req1.header (mapEntries c.header) })

/-- Method `makeClient`: it stores the dialer in the transport and returns the client. -/
def Client.makeClient (c : Client) : Except GoPanic (Client × HttpClient) :=
  match c.transport with
  | none => .error .nilTransport
  | some t =>
    let t1 := { t with
      dialContext := some { timeout := c.dialTimeout, keepAlive := c.keepAliveTimeout } }
    .ok ({ c with transport := some t1 }, { transport := some t1, timeout := c.timeout })

/-- The steps of `Go` after its error check, in the order they run. -/
inductive Step
  | makeRequest
  | makeClient
  | send (req : Request)
deriving DecidableEq, Repr

/-- What a call of `Go` leaves behind: the builder, the two results and the steps run. -/
structure Outcome where
  client : Client
  response : Option Response
  err : Option GoError
  steps : List Step
deriving DecidableEq, Repr

/-- Method `Go`.  The loop `req.URL.Query().Add(k, v)` writes into a copy of the query
that `Query()` returns and is dropped at once, so it changes neither builder nor request. -/
def Client.Go (env : Env) (c : Client) : Except GoPanic Outcome :=
  match c.err with
  | some err => .ok { client := c, response := none, err := some err, steps := [] }
  | none =>
    let r := c.makeRequest env
    match r.2 with
    | .error err =>
      .ok { client := r.1, response := none
            err := some ⟨"make request failed:" ++ env.quote err⟩
            steps := [.makeRequest] }
    | .ok req =>
      match r.1.makeClient with
      | .error p => .error p
      | .ok (c1, client) =>
        let res := env.send client req
        .ok { client := c1, response := res.1, err := res.2
              steps := [.makeRequest, .makeClient, .send req] }

/-! ## `client_tls.go` -/

/-- Modelled from the spec: `keepOrigionErr`, the method `client_tls.go` calls to record
an error, has no definition in the source files (`client.go` defines `keepOriginErr`).
The spec describes the `err` field as the "first error encountered during configuration
(sticky — first write wins, never overwritten)". -/
def Client.keepOrigionErr (c : Client) (err : Option GoError) : Client :=
  if c.err = none then { c with err := err } else c

/-- A write through `c.transport.TLSClientConfig`; it panics when either pointer is nil. -/
def Client.onTlsConfig (c : Client) (f : TlsConfig → Except GoPanic TlsConfig) :
    Except GoPanic Client :=
  match c.transport with
  | none => .error .nilTransport
  | some t =>
    match t.tlsClientConfig with
    | none => .error .nilTlsConfig
    | some cfg =>
      match f cfg with
      | .error p => .error p
      | .ok cfg1 => .ok { c with transport := some { t with tlsClientConfig := some cfg1 } }

/-- A call of a method of `c.transport.TLSClientConfig.RootCAs`; it panics when the pool
is nil. -/
def onRootCAs (f : CertPool → Except GoPanic CertPool) (cfg : TlsConfig) :
    Except GoPanic TlsConfig :=
  match cfg.rootCAs with
  | none => .error .nilCertPool
  | some pool =>
    match f pool with
    | .error p => .error p
    | .ok pool1 => .ok { cfg with rootCAs := some pool1 }

/-- Method `TlsConfig`. -/
def Client.TlsConfig (c : Client) (config : Option TlsConfig) : Except GoPanic Client :=
  c.onTransport (fun t => { t with tlsClientConfig := config })

/-- Method `judge2genTlsConfig`. -/
def Client.judge2genTlsConfig (c : Client) : Except GoPanic Client :=
  match c.transport with
  | none => .error .nilTransport
  | some t =>
    if t.tlsClientConfig = none then
      .ok { c with transport := some { t with tlsClientConfig := some TlsConfig.zero } }
    else .ok c

/-- Method `judge2genPool`; `x509.NewCertPool()` is the empty pool. -/
def Client.judge2genPool (c : Client) : Except GoPanic Client :=
  match c.judge2genTlsConfig with
  | .error p => .error p
  | .ok c1 =>
    c1.onTlsConfig (fun cfg =>
      if cfg.rootCAs = none then .ok { cfg with rootCAs := some [] } else .ok cfg)

/-- Method `InsecureSkipVerify`. -/
def Client.InsecureSkipVerify (c : Client) (skip : Bool) : Except GoPanic Client :=
  match c.judge2genTlsConfig with
  | .error p => .error p
  | .ok c1 => c1.onTlsConfig (fun cfg => .ok { cfg with insecureSkipVerify := skip })

/-- Method `AddCAContent`. -/
def Client.AddCAContent (env : Env) (c : Client) (cacontent : Bytes) : Except GoPanic Client :=
  match c.judge2genPool with
  | .error p => .error p
  | .ok c1 =>
    c1.onTlsConfig (onRootCAs (fun pool => .ok (env.appendCertsFromPEM pool cacontent)))

/-- Method `AddCAFile`. -/
def Client.AddCAFile (env : Env) (c : Client) (cafile : String) : Except GoPanic Client :=
  match env.readFile cafile with
  | .error err => .ok (c.keepOrigionErr (some err))
  | .ok content => c.AddCAContent env content

/-- Method `AddCACert`; library `AddCert` panics on a nil certificate. -/
def Client.AddCACert (env : Env) (c : Client) (cert : Option X509Cert) : Except GoPanic Client :=
  match c.judge2genPool with
  | .error p => .error p
  | .ok c1 =>
    c1.onTlsConfig (onRootCAs (fun pool =>
      match cert with
      | none => .error .nilCertificate
      | some x => .ok (env.poolAddCert pool x)))

/-- Method `CertPool`. -/
def Client.CertPool (c : Client) (pool : Option CertPool) : Except GoPanic Client :=
  match c.judge2genTlsConfig with
  | .error p => .error p
  | .ok c1 => c1.onTlsConfig (fun cfg => .ok { cfg with rootCAs := pool })

/-- Method `AddCert`. -/
def Client.AddCert (c : Client) (cert : TlsCert) : Except GoPanic Client :=
  match c.judge2genTlsConfig with
  | .error p => .error p
  | .ok c1 =>
    c1.onTlsConfig (fun cfg => .ok { cfg with certificates := cfg.certificates ++ [cert] })

/-- Method `AddCertContent`. -/
def Client.AddCertContent (env : Env) (c : Client) (certContent keyContent : Bytes) :
    Except GoPanic Client :=
  match env.x509KeyPair certContent keyContent with
  | .error err => .ok (c.keepOrigionErr (some err))
  | .ok cert => c.AddCert cert

/-- Method `AddCertFile`. -/
def Client.AddCertFile (env : Env) (c : Client) (cert key : String) : Except GoPanic Client :=
  match env.readFile cert with
  | .error err => .ok (c.keepOrigionErr (some err))
  | .ok certCotent =>
    match env.readFile key with
    | .error err => .ok (c.keepOrigionErr (some err))
    | .ok keyContent => c.AddCertContent env certCotent keyContent

/-! ## Sequences of calls -/

/-- The calls a user can chain on a builder, each with its arguments. -/
inductive Call
  | Get (url : String)
  | Post (url : String)
  | Put (url : String)
  | Head (url : String)
  | Delete (url : String)
  | Patch (url : String)
  | Options (url : String)
  | ReNew (method url : String)
  | AppendQuery (key value : String)
  | AppendQueries (queries : Option GoMap)
  | ContentType (contentType : String)
  | Header (k v : String)
  | Body (body : GoValue)
  | Timeout (timeout : Duration)
  | DialTimeout (timeout : Duration)
  | KeepAliveTimeout (timeout : Duration)
  | IdleConnTimeout (timeout : Duration)
  | TLSHandshakeTimeout (timeout : Duration)
  | ExpectContinueTimeout (timeout : Duration)
  | TlsConfig (config : Option TlsConfig)
  | InsecureSkipVerify (skip : Bool)
  | AddCAFile (cafile : String)
  | AddCAContent (cacontent : Bytes)
  | AddCACert (cert : Option X509Cert)
  | CertPool (pool : Option CertPool)
  | AddCertFile (cert key : String)
  | AddCertContent (certContent keyContent : Bytes)
  | AddCert (cert : TlsCert)
  | DebugString
deriving DecidableEq, Repr

/-- One call on a builder. -/
def Call.apply (env : Env) (c : Client) (call : Call) : Except GoPanic Client :=
  match call with
  | .Get url => .ok (c.Get url)
  | .Post url => .ok (c.Post url)
  | .Put url => .ok (c.Put url)
  | .Head url => .ok (c.Head url)
  | .Delete url => .ok (c.Delete url)
  | .Patch url => .ok (c.Patch url)
  | .Options url => .ok (c.Options url)
  | .ReNew method url => .ok (c.ReNew method url)
  | .AppendQuery key value => .ok (c.AppendQuery key value)
  | .AppendQueries queries => .ok (c.AppendQueries queries)
  | .ContentType contentType => .ok (c.ContentType contentType)
  | .Header k v => c.Header k v
  | .Body body => .ok (c.Body env body)
  | .Timeout timeout => .ok (c.Timeout timeout)
  | .DialTimeout timeout => .ok (c.DialTimeout timeout)
  | .KeepAliveTimeout timeout => .ok (c.KeepAliveTimeout timeout)
  | .IdleConnTimeout timeout => c.IdleConnTimeout timeout
  | .TLSHandshakeTimeout timeout => c.TLSHandshakeTimeout timeout
  | .ExpectContinueTimeout timeout => c.ExpectContinueTimeout timeout
  | .TlsConfig config => c.TlsConfig config
  | .InsecureSkipVerify skip => c.InsecureSkipVerify skip
  | .AddCAFile cafile => c.AddCAFile env cafile
  | .AddCAContent cacontent => c.AddCAContent env cacontent
  | .AddCACert cert => c.AddCACert env cert
  | .CertPool pool => c.CertPool pool
  | .AddCertFile cert key => c.AddCertFile env cert key
  | .AddCertContent certContent keyContent => c.AddCertContent env certContent keyContent
  | .AddCert cert => c.AddCert cert
  | .DebugString => .ok (c.DebugString env).1

/-- A chain of calls, from left to right; a panic ends the chain. -/
def runCalls (env : Env) (c : Client) (calls : List Call) : Except GoPanic Client :=
  match calls with
  | [] => .ok c
  | call :: rest =>
    match call.apply env c with
    | .error p => .error p
    | .ok c1 => runCalls env c1 rest

/-- The calls that reset the request state. -/
def Call.isReset (call : Call) : Bool :=
  match call with
  | .Get _ | .Post _ | .Put _ | .Head _ | .Delete _ | .Patch _ | .Options _ | .ReNew _ _ => true
  | _ => false

/-- The two allocations every builder made by `New` carries: the header map and the
transport. -/
def Client.Allocated (c : Client) : Prop :=
  c.header.isSome = true ∧ c.transport.isSome = true

instance (c : Client) : Decidable c.Allocated := by
  unfold Client.Allocated; infer_instance

/-- The relation between a builder `c` and a later state `c1` that differs from it in
the transport at most, the transport of `c1` being allocated. -/
def Client.TransportStep (c c1 : Client) : Prop :=
  c1 = { c with transport := c1.transport } ∧ c1.transport.isSome = true

/-- The calls that append query parameters. -/
def Call.isQuery (call : Call) : Bool :=
  match call with
  | .AppendQuery _ _ | .AppendQueries _ => true
  | _ => false

/-- The value a call adds for the key `k`, if it adds one; within one `AppendQueries` the
last write of the loop is the one that stays. -/
def Call.added (call : Call) (k : String) : Option String :=
  match call with
  | .AppendQuery key value => if key = k then some value else none
  | .AppendQueries queries => GoMap.get (mapEntries queries).reverse k
  | _ => none

/-- The value added for the key `k` by the last call of a chain that adds one. -/
def lastAdded (calls : List Call) (k : String) : Option String :=
  match calls with
  | [] => none
  | call :: rest =>
    match lastAdded rest k with
    | some v => some v
    | none => call.added k

/-- The read `c.queries[k]` with its presence flag; a nil map has no key. -/
def Client.queryGet (c : Client) (k : String) : Option String :=
  GoMap.get (mapEntries c.queries) k

/-! ## A concrete library for examples -/

/-- The pieces of a list of characters between occurrences of `sep`. -/
def splitAt (sep : Char) (cs : List Char) : List (List Char) :=
  match cs with
  | [] => [[]]
  | ch :: rest =>
    if ch = sep then [] :: splitAt sep rest
    else
      match splitAt sep rest with
      | [] => [[ch]]
      | piece :: pieces => (ch :: piece) :: pieces

/-- The query of a raw query string without escapes: `k=v` pairs separated by `&`. -/
def sampleQuery (raw : List Char) : MultiMap :=
  ((splitAt '&' raw).filter (fun p => !p.isEmpty)).foldl
    (fun q p =>
      MultiMap.add q (String.mk (p.takeWhile (fun ch => ch != '=')))
        (String.mk ((p.dropWhile (fun ch => ch != '=')).drop 1)))
    []

/-- The encoding `k=v&k=v` of query values, without escapes, in stored order. -/
def sampleEncode (q : MultiMap) : String :=
  "&".intercalate (q.flatMap (fun kvs => kvs.2.map (fun v => kvs.1 ++ "=" ++ v)))

/-- A small deterministic library used to evaluate the embedding on sample inputs.  It
follows the Go library on the inputs the examples use: urls and queries without escapes,
a url starting with a colon is rejected, no file exists, an empty certificate input is
rejected, a channel cannot be marshalled, and the server echoes the request body. -/
def sampleEnv : Env where
  urlParse s :=
    match s.data with
    | ':' :: _ => .error ⟨"parse \"" ++ s ++ "\": missing protocol scheme"⟩
    | cs =>
      let main := cs.takeWhile (fun ch => ch != '#')
      .ok { base := String.mk (main.takeWhile (fun ch => ch != '?'))
            rawQuery := String.mk ((main.dropWhile (fun ch => ch != '?')).drop 1)
            fragment := String.mk ((cs.dropWhile (fun ch => ch != '#')).drop 1) }
  urlQuery u := sampleQuery u.rawQuery.data
  valuesEncode := sampleEncode
  urlString u :=
    u.base ++ (if u.rawQuery = "" then "" else "?" ++ u.rawQuery) ++
      (if u.fragment = "" then "" else "#" ++ u.fragment)
  removeEmptyPort u := u
  jsonMarshal d :=
    match d with
    | .null => (some (stringBytes "null"), none)
    | .int n => (some (stringBytes (toString n)), none)
    | .intSlice ns =>
      (some (stringBytes ("[" ++ ",".intercalate (ns.map toString) ++ "]")), none)
    | .stringMap m =>
      (some (stringBytes ("\x7b" ++
        ",".intercalate (m.map (fun kv => "\"" ++ kv.1 ++ "\":\"" ++ kv.2 ++ "\"")) ++
        "\x7d")), none)
    | .chan => (none, some ⟨"json: unsupported type: chan int"⟩)
  readFile name := .error ⟨"open " ++ name ++ ": no such file or directory"⟩
  x509KeyPair certContent keyContent :=
    if certContent = [] then
      .error ⟨"tls: failed to find any PEM data in certificate input"⟩
    else .ok { chain := certContent, key := keyContent }
  appendCertsFromPEM pool content := if content = [] then pool else pool ++ [⟨content⟩]
  poolAddCert pool cert := if cert ∈ pool then pool else pool ++ [cert]
  quote err := "\"" ++ err.text ++ "\""
  fmtMap m := "map[" ++ " ".intercalate ((mapEntries m).map (fun kv => kv.1 ++ ":" ++ kv.2)) ++ "]"
  fmtBytes b := String.mk ((b.getD []).map (fun x => Char.ofNat x.toNat))
  send _ req := (some { statusCode := 200, body := req.body }, none)

/-- A builder carrying a recorded error: `New().Get("http://h/").Header("", "x")`. -/
def failedBuilder : Client :=
  { New.Get "http://h/" with err := some ⟨"invalid header, key or value is empty"⟩ }

/-- A builder with a recorded error and a url that does not parse. -/
def stickyBuilder : Client :=
  { New.Get ":bad" with err := some ⟨"first"⟩ }

/-- A chain of calls without a reset, four of which fail on their input. -/
def failingCalls : List Call :=
  [.Header "" "x", .Body (.other .chan), .AddCertContent [] [], .AddCAFile "ca.pem",
   .DebugString, .Header "Key" "Value", .AppendQuery "a" "1", .InsecureSkipVerify false]

/-- A builder whose url carries a query of its own. -/
def queryBuilder : Client := New.Get "http://h/?a=0"

/-- The parse of the url of `queryBuilder`. -/
def queryBuilderUrl : URL := { base := "http://h/", rawQuery := "a=0", fragment := "" }

/-- Two calls that add the same key with different values. -/
def sameKeyCalls : List Call := [.AppendQuery "a" "1", .AppendQuery "a" "2"]

/-- The builder `New().Get("http://h/").Header("key", "a").Header("Key", "b")`, its two
header entries listed in the order of the calls. -/
def collidingBuilder : Client :=
  { New.Get "http://h/" with header := some [("key", "a"), ("Key", "b")] }

/-- The same builder with its header entries visited in the other order. -/
def collidingBuilderSwapped : Client :=
  { New.Get "http://h/" with header := some [("Key", "b"), ("key", "a")] }

/-- The builder `New().Get("http://h/example").Header("Key", "Value")` of `TestGet`. -/
def testGetBuilder : Client :=
  { New.Get "http://h/example" with header := some [("Key", "Value")] }

/-- The parse of the url of `testGetBuilder`. -/
def testGetUrl : URL := { base := "http://h/example", rawQuery := "", fragment := "" }

/-- The builder `New().Get("http://h/")`: no content type, no custom header. -/
def plainBuilder : Client := New.Get "http://h/"

/-- The builder `New().Post("http://h/").ContentType("application/json")`. -/
def jsonBuilder : Client := (New.Post "http://h/").ContentType "application/json"

/-- The parse of the url `http://h/`. -/
def plainUrl : URL := { base := "http://h/", rawQuery := "", fragment := "" }

/-- The builder `New().Post("http://h/").Body("post text")`. -/
def textBuilder : Client := (New.Post "http://h/").Body sampleEnv (.str "post text")

/-- A chain on `New()` that removes the TLS configuration, then the trust store, and
writes to both again. -/
def nilChain : List Call :=
  [.Get "http://h/", .TlsConfig none, .InsecureSkipVerify false, .CertPool none,
   .AddCAContent [1], .Header "Key" "Value", .IdleConnTimeout 5]

/-- The builder `New().Get(":bad")`: no recorded error, a url that does not parse. -/
def badUrlBuilder : Client := New.Get ":bad"

/-- The error of the library for the url `:bad`. -/
def badUrlError : GoError := ⟨"parse \":bad\": missing protocol scheme"⟩

/-! ## Theorems -/

theorem keepOriginErr_of_some (c : Client) (e : GoError) (err : Option GoError)
    (h : c.err = some e) : c.keepOriginErr err = c := by
  simp [Client.keepOriginErr, h]

theorem keepOriginErr_of_none (c : Client) (err : Option GoError) (h : c.err = none) :
    c.keepOriginErr err = { c with err := err } := by
  simp [Client.keepOriginErr, h]

/-- C1: a builder whose `err` field holds an error `e` makes `Go` return `(nil, e)` with
no step run after the check (not `makeRequest`, not `makeClient`, not the send) and with
every builder field as it was. -/
theorem Go_returns_recorded_error (env : Env) (c : Client) (e : GoError)
    (h : c.err = some e) :
    c.Go env = .ok { client := c, response := none, err := some e, steps := [] } := by
  simp [Client.Go, h]

theorem Go_returns_recorded_error_witness :
    failedBuilder.err = some ⟨"invalid header, key or value is empty"⟩ ∧
    failedBuilder.Go sampleEnv =
      .ok { client := failedBuilder, response := none,
            err := some ⟨"invalid header, key or value is empty"⟩, steps := [] } :=
  ⟨rfl, Go_returns_recorded_error sampleEnv failedBuilder _ rfl⟩

theorem GoMap.get_set_self (m : GoMap) (k v : String) : GoMap.get (GoMap.set m k v) k = some v := by
  induction m with
  | nil => simp [GoMap.set, GoMap.get]
  | cons kv rest ih =>
    obtain ⟨k1, v1⟩ := kv
    by_cases hk : k1 = k
    · simp [GoMap.set, GoMap.get, hk]
    · simp [GoMap.set, GoMap.get, hk, ih]

theorem GoMap.get_set_other (m : GoMap) (k v k2 : String) (h : k2 ≠ k) :
    GoMap.get (GoMap.set m k v) k2 = GoMap.get m k2 := by
  induction m with
  | nil => simp [GoMap.set, GoMap.get, Ne.symm h]
  | cons kv rest ih =>
    obtain ⟨k1, v1⟩ := kv
    by_cases hk : k1 = k
    · subst hk
      simp [GoMap.set, GoMap.get, Ne.symm h]
    · by_cases hk2 : k1 = k2
      · subst hk2
        simp [GoMap.set, GoMap.get, h]
      · simp [GoMap.set, GoMap.get, hk, hk2, ih]

/-- C2: on a builder whose header map is allocated (every builder made by `New`), a call
`Header(k, v)` with `k` or `v` empty returns with the header map as it was and with `err`
kept when it was non-nil and otherwise set to the error "invalid header, key or value is
empty"; with both non-empty it stores `header[k] = v`, leaves every other key of the map
as it was and leaves `err` as it was. -/
theorem Header_records_or_stores (c : Client) (h : GoMap) (k v : String)
    (hh : c.header = some h) :
    ((k = "" ∨ v = "") →
      ∃ c1, c.Header k v = .ok c1 ∧ c1.header = some h ∧
        (c.err ≠ none → c1.err = c.err) ∧
        (c.err = none → c1.err = some ⟨"invalid header, key or value is empty"⟩)) ∧
    ((k ≠ "" ∧ v ≠ "") →
      ∃ c1 h1, c.Header k v = .ok c1 ∧ c1.header = some h1 ∧
        GoMap.get h1 k = some v ∧
        (∀ k2, k2 ≠ k → GoMap.get h1 k2 = GoMap.get h k2) ∧
        c1.err = c.err) := by
  constructor
  · intro hkv
    refine ⟨c.keepOriginErr (some ⟨"invalid header, key or value is empty"⟩), ?_, ?_, ?_, ?_⟩
    · simp [Client.Header, hkv]
    · unfold Client.keepOriginErr
      split <;> simp [hh]
    · intro hne
      unfold Client.keepOriginErr
      simp [hne]
    · intro hnone
      simp [Client.keepOriginErr, hnone]
  · rintro ⟨hk, hv⟩
    refine ⟨{ c with header := some (GoMap.set h k v) }, GoMap.set h k v, ?_, rfl,
      GoMap.get_set_self h k v, fun k2 hk2 => GoMap.get_set_other h k v k2 hk2, rfl⟩
    simp [Client.Header, hk, hv, hh]

theorem Header_records_or_stores_witness :
    New.header = some [] ∧
    (("" = "" ∨ "x" = "") →
      ∃ c1, New.Header "" "x" = .ok c1 ∧ c1.header = some [] ∧
        (New.err ≠ none → c1.err = New.err) ∧
        (New.err = none → c1.err = some ⟨"invalid header, key or value is empty"⟩)) ∧
    (("Key" ≠ "" ∧ "Value" ≠ "") →
      ∃ c1 h1, New.Header "Key" "Value" = .ok c1 ∧ c1.header = some h1 ∧
        GoMap.get h1 "Key" = some "Value" ∧
        (∀ k2, k2 ≠ "Key" → GoMap.get h1 k2 = GoMap.get [] k2) ∧
        c1.err = New.err) :=
  ⟨rfl, (Header_records_or_stores New [] "" "x" rfl).1,
    (Header_records_or_stores New [] "Key" "Value" rfl).2⟩

/-! ### Frame lemmas for the transport methods -/

theorem Client.TransportStep.trans {c c1 c2 : Client} (h1 : c.TransportStep c1)
    (h2 : c1.TransportStep c2) : c.TransportStep c2 := by
  obtain ⟨e1, _⟩ := h1
  obtain ⟨e2, s2⟩ := h2
  refine ⟨?_, s2⟩
  rw [e2, e1]

theorem Client.TransportStep.err {c c1 : Client} (h : c.TransportStep c1) : c1.err = c.err := by
  rw [h.1]

theorem Client.TransportStep.header {c c1 : Client} (h : c.TransportStep c1) :
    c1.header = c.header := by
  rw [h.1]

theorem onTransport_step {c c1 : Client} {f : Transport → Transport}
    (h : c.onTransport f = .ok c1) : c.TransportStep c1 := by
  unfold Client.onTransport at h
  cases ht : c.transport with
  | none => simp [ht] at h
  | some t =>
    simp only [ht, Except.ok.injEq] at h
    subst h
    exact ⟨rfl, rfl⟩

theorem onTransport_ok {c : Client} (f : Transport → Transport)
    (h : c.transport.isSome = true) : ∃ c1, c.onTransport f = .ok c1 := by
  unfold Client.onTransport
  cases ht : c.transport with
  | none => simp [ht] at h
  | some t => exact ⟨_, rfl⟩

theorem onTlsConfig_step {c c1 : Client} {f : TlsConfig → Except GoPanic TlsConfig}
    (h : c.onTlsConfig f = .ok c1) : c.TransportStep c1 := by
  unfold Client.onTlsConfig at h
  cases ht : c.transport with
  | none => simp [ht] at h
  | some t =>
    cases hc : t.tlsClientConfig with
    | none => simp [ht, hc] at h
    | some cfg =>
      cases hf : f cfg with
      | error p => simp [ht, hc, hf] at h
      | ok cfg1 =>
        simp only [ht, hc, hf, Except.ok.injEq] at h
        subst h
        exact ⟨rfl, rfl⟩

theorem judge2genTlsConfig_step {c c1 : Client} (h : c.judge2genTlsConfig = .ok c1) :
    c.TransportStep c1 ∧ ∃ t cfg, c1.transport = some t ∧ t.tlsClientConfig = some cfg := by
  unfold Client.judge2genTlsConfig at h
  cases ht : c.transport with
  | none => simp [ht] at h
  | some t =>
    simp only [ht] at h
    split at h
    · simp only [Except.ok.injEq] at h
      subst h
      exact ⟨⟨rfl, rfl⟩, _, _, rfl, rfl⟩
    · rename_i hcfg
      simp only [Except.ok.injEq] at h
      subst h
      refine ⟨⟨?_, by simp [ht]⟩, t, ?_⟩
      · cases c; simp
      · cases hc : t.tlsClientConfig with
        | none => exact absurd hc hcfg
        | some cfg => exact ⟨cfg, ht, rfl⟩

theorem judge2genTlsConfig_ok {c : Client} (h : c.transport.isSome = true) :
    ∃ c1, c.judge2genTlsConfig = .ok c1 := by
  unfold Client.judge2genTlsConfig
  cases ht : c.transport with
  | none => simp [ht] at h
  | some t =>
    simp only
    split
    · exact ⟨_, rfl⟩
    · exact ⟨_, rfl⟩

theorem judge_then_step {c c1 : Client} {f : TlsConfig → Except GoPanic TlsConfig}
    (h : (match c.judge2genTlsConfig with
          | Except.error p => Except.error p
          | Except.ok c0 => c0.onTlsConfig f) = Except.ok c1) : c.TransportStep c1 := by
  cases hj : c.judge2genTlsConfig with
  | error p => simp [hj] at h
  | ok c0 =>
    simp only [hj] at h
    exact (judge2genTlsConfig_step hj).1.trans (onTlsConfig_step h)

theorem judge2genPool_step {c c1 : Client} (h : c.judge2genPool = .ok c1) :
    c.TransportStep c1 := by
  unfold Client.judge2genPool at h
  exact judge_then_step h

theorem pool_then_step {c c1 : Client} {f : TlsConfig → Except GoPanic TlsConfig}
    (h : (match c.judge2genPool with
          | Except.error p => Except.error p
          | Except.ok c0 => c0.onTlsConfig f) = Except.ok c1) : c.TransportStep c1 := by
  cases hj : c.judge2genPool with
  | error p => simp [hj] at h
  | ok c0 =>
    simp only [hj] at h
    exact (judge2genPool_step hj).trans (onTlsConfig_step h)

theorem InsecureSkipVerify_step {c c1 : Client} {skip : Bool}
    (h : c.InsecureSkipVerify skip = .ok c1) : c.TransportStep c1 :=
  judge_then_step h

theorem CertPool_step {c c1 : Client} {pool : Option CertPool}
    (h : c.CertPool pool = .ok c1) : c.TransportStep c1 :=
  judge_then_step h

theorem AddCert_step {c c1 : Client} {cert : TlsCert}
    (h : c.AddCert cert = .ok c1) : c.TransportStep c1 :=
  judge_then_step h

theorem AddCAContent_step {env : Env} {c c1 : Client} {content : Bytes}
    (h : c.AddCAContent env content = .ok c1) : c.TransportStep c1 :=
  pool_then_step h

theorem AddCACert_step {env : Env} {c c1 : Client} {cert : Option X509Cert}
    (h : c.AddCACert env cert = .ok c1) : c.TransportStep c1 :=
  pool_then_step h

/-- The three methods that can fail on their input either record the error and stop, or
go on to a transport write. -/
theorem AddCAFile_cases {env : Env} {c c1 : Client} {cafile : String}
    (h : c.AddCAFile env cafile = .ok c1) :
    (∃ err, env.readFile cafile = .error err ∧ c1 = c.keepOrigionErr (some err)) ∨
    c.TransportStep c1 := by
  unfold Client.AddCAFile at h
  cases hr : env.readFile cafile with
  | error err =>
    simp only [hr, Except.ok.injEq] at h
    exact Or.inl ⟨err, rfl, h.symm⟩
  | ok content =>
    simp only [hr] at h
    exact Or.inr (AddCAContent_step h)

theorem AddCertContent_cases {env : Env} {c c1 : Client} {certContent keyContent : Bytes}
    (h : c.AddCertContent env certContent keyContent = .ok c1) :
    (∃ err, env.x509KeyPair certContent keyContent = .error err ∧
      c1 = c.keepOrigionErr (some err)) ∨
    c.TransportStep c1 := by
  unfold Client.AddCertContent at h
  cases hr : env.x509KeyPair certContent keyContent with
  | error err =>
    simp only [hr, Except.ok.injEq] at h
    exact Or.inl ⟨err, rfl, h.symm⟩
  | ok cert =>
    simp only [hr] at h
    exact Or.inr (AddCert_step h)

theorem AddCertFile_cases {env : Env} {c c1 : Client} {cert key : String}
    (h : c.AddCertFile env cert key = .ok c1) :
    (∃ err, c1 = c.keepOrigionErr (some err)) ∨ c.TransportStep c1 := by
  unfold Client.AddCertFile at h
  cases hr : env.readFile cert with
  | error err =>
    simp only [hr, Except.ok.injEq] at h
    exact Or.inl ⟨err, h.symm⟩
  | ok certCotent =>
    cases hk : env.readFile key with
    | error err =>
      simp only [hr, hk, Except.ok.injEq] at h
      exact Or.inl ⟨err, h.symm⟩
    | ok keyContent =>
      simp only [hr, hk] at h
      rcases AddCertContent_cases h with ⟨err, _, he⟩ | hs
      · exact Or.inl ⟨err, he⟩
      · exact Or.inr hs

theorem keepOrigionErr_err_of_some (c : Client) (e : GoError) (err : Option GoError)
    (h : c.err = some e) : (c.keepOrigionErr err).err = some e := by
  simp [Client.keepOrigionErr, h]

theorem getFullUrl_err_of_some (env : Env) (c : Client) (e : GoError) (h : c.err = some e) :
    (c.getFullUrl env).1 = c := by
  unfold Client.getFullUrl
  split
  · exact keepOriginErr_of_some c e _ h
  · rfl

/-- A call other than a reset that returns leaves a recorded error in place. -/
theorem apply_keeps_err {env : Env} {c c1 : Client} {e : GoError} {call : Call}
    (he : c.err = some e) (hr : call.isReset = false) (h : call.apply env c = .ok c1) :
    c1.err = some e := by
  cases call with
  | Get _ | Post _ | Put _ | Head _ | Delete _ | Patch _ | Options _ | ReNew _ _ =>
    simp [Call.isReset] at hr
  | AppendQuery key value =>
    simp only [Call.apply, Except.ok.injEq] at h
    subst h
    unfold Client.AppendQuery
    split <;> exact he
  | AppendQueries queries =>
    simp only [Call.apply, Except.ok.injEq] at h
    subst h
    unfold Client.AppendQueries
    split <;> exact he
  | ContentType _ | Timeout _ | DialTimeout _ | KeepAliveTimeout _ =>
    simp only [Call.apply, Except.ok.injEq] at h
    subst h
    exact he
  | Header k v =>
    simp only [Call.apply, Client.Header] at h
    split at h
    · simp only [Except.ok.injEq] at h
      subst h
      rw [keepOriginErr_of_some c e _ he]
      exact he
    · cases hh : c.header with
      | none => simp [hh] at h
      | some hm =>
        simp only [hh, Except.ok.injEq] at h
        subst h
        exact he
  | Body body =>
    simp only [Call.apply, Except.ok.injEq] at h
    subst h
    cases body with
    | str value => exact he
    | bytes value => exact he
    | other d =>
      simp only [Client.Body]
      rw [keepOriginErr_of_some _ e _ (by exact he)]
      exact he
  | IdleConnTimeout _ | TLSHandshakeTimeout _ | ExpectContinueTimeout _ | TlsConfig _ =>
    simp only [Call.apply] at h
    rw [(onTransport_step h).err]
    exact he
  | InsecureSkipVerify skip =>
    rw [(InsecureSkipVerify_step h).err]
    exact he
  | AddCAFile cafile =>
    rcases AddCAFile_cases h with ⟨err, _, hc⟩ | hs
    · rw [hc]
      exact keepOrigionErr_err_of_some c e _ he
    · rw [hs.err]
      exact he
  | AddCAContent cacontent =>
    rw [(AddCAContent_step h).err]
    exact he
  | AddCACert cert =>
    rw [(AddCACert_step h).err]
    exact he
  | CertPool pool =>
    rw [(CertPool_step h).err]
    exact he
  | AddCertFile cert key =>
    rcases AddCertFile_cases h with ⟨err, hc⟩ | hs
    · rw [hc]
      exact keepOrigionErr_err_of_some c e _ he
    · rw [hs.err]
      exact he
  | AddCertContent certContent keyContent =>
    rcases AddCertContent_cases h with ⟨err, _, hc⟩ | hs
    · rw [hc]
      exact keepOrigionErr_err_of_some c e _ he
    · rw [hs.err]
      exact he
  | AddCert cert =>
    rw [(AddCert_step h).err]
    exact he
  | DebugString =>
    simp only [Call.apply, Client.DebugString, Except.ok.injEq] at h
    subst h
    rw [getFullUrl_err_of_some env c e he]
    exact he

/-! ### The transport methods on an allocated transport -/

theorem judge2genTlsConfig_eq {c : Client} {t : Transport} (ht : c.transport = some t) :
    c.judge2genTlsConfig = .ok { c with transport := some { t with
      tlsClientConfig := some (t.tlsClientConfig.getD TlsConfig.zero) } } := by
  unfold Client.judge2genTlsConfig
  cases hc : t.tlsClientConfig with
  | none => simp [ht, hc]
  | some cfg =>
    simp only [ht, hc, Option.getD_some]
    have : ({ t with tlsClientConfig := some cfg } : Transport) = t := by
      cases t; simp_all
    rw [this]
    cases c; simp_all

theorem onTlsConfig_eq {c : Client} {t : Transport} {cfg cfg1 : TlsConfig}
    {f : TlsConfig → Except GoPanic TlsConfig} (ht : c.transport = some t)
    (hc : t.tlsClientConfig = some cfg) (hf : f cfg = .ok cfg1) :
    c.onTlsConfig f = .ok { c with transport := some { t with tlsClientConfig := some cfg1 } } := by
  simp [Client.onTlsConfig, ht, hc, hf]

theorem onTlsConfig_error {c : Client} {t : Transport} {cfg : TlsConfig} {p : GoPanic}
    {f : TlsConfig → Except GoPanic TlsConfig} (ht : c.transport = some t)
    (hc : t.tlsClientConfig = some cfg) (hf : f cfg = .error p) :
    c.onTlsConfig f = .error p := by
  simp [Client.onTlsConfig, ht, hc, hf]

theorem judge2genPool_eq {c : Client} {t : Transport} (ht : c.transport = some t) :
    c.judge2genPool = .ok { c with transport := some { t with
      tlsClientConfig := some { (t.tlsClientConfig.getD TlsConfig.zero) with
        rootCAs := some ((t.tlsClientConfig.getD TlsConfig.zero).rootCAs.getD []) } } } := by
  unfold Client.judge2genPool
  rw [judge2genTlsConfig_eq ht]
  simp only
  cases hp : (t.tlsClientConfig.getD TlsConfig.zero).rootCAs with
  | none =>
    simp [Client.onTlsConfig, hp]
  | some pool =>
    simp only [Client.onTlsConfig, hp, Option.getD_some]
    have : ({ (t.tlsClientConfig.getD TlsConfig.zero) with rootCAs := some pool } : TlsConfig)
        = t.tlsClientConfig.getD TlsConfig.zero := by
      generalize t.tlsClientConfig.getD TlsConfig.zero = cfg at hp
      cases cfg; simp_all
    simp [this]

theorem InsecureSkipVerify_eq {c : Client} {t : Transport} (skip : Bool)
    (ht : c.transport = some t) :
    c.InsecureSkipVerify skip = .ok { c with transport := some { t with
      tlsClientConfig := some { (t.tlsClientConfig.getD TlsConfig.zero) with
        insecureSkipVerify := skip } } } := by
  unfold Client.InsecureSkipVerify
  rw [judge2genTlsConfig_eq ht]
  simp [Client.onTlsConfig]

theorem CertPool_eq {c : Client} {t : Transport} (pool : Option CertPool)
    (ht : c.transport = some t) :
    c.CertPool pool = .ok { c with transport := some { t with
      tlsClientConfig := some { (t.tlsClientConfig.getD TlsConfig.zero) with
        rootCAs := pool } } } := by
  unfold Client.CertPool
  rw [judge2genTlsConfig_eq ht]
  simp [Client.onTlsConfig]

theorem AddCert_eq {c : Client} {t : Transport} (cert : TlsCert)
    (ht : c.transport = some t) :
    c.AddCert cert = .ok { c with transport := some { t with
      tlsClientConfig := some { (t.tlsClientConfig.getD TlsConfig.zero) with
        certificates := (t.tlsClientConfig.getD TlsConfig.zero).certificates ++ [cert] } } } := by
  unfold Client.AddCert
  rw [judge2genTlsConfig_eq ht]
  simp [Client.onTlsConfig]

theorem AddCAContent_eq {c : Client} {t : Transport} (env : Env) (content : Bytes)
    (ht : c.transport = some t) :
    c.AddCAContent env content = .ok { c with transport := some { t with
      tlsClientConfig := some { (t.tlsClientConfig.getD TlsConfig.zero) with
        rootCAs := some (env.appendCertsFromPEM
          ((t.tlsClientConfig.getD TlsConfig.zero).rootCAs.getD []) content) } } } := by
  unfold Client.AddCAContent
  rw [judge2genPool_eq ht]
  simp [Client.onTlsConfig, onRootCAs]

theorem AddCACert_eq {c : Client} {t : Transport} (env : Env) (cert : X509Cert)
    (ht : c.transport = some t) :
    c.AddCACert env (some cert) = .ok { c with transport := some { t with
      tlsClientConfig := some { (t.tlsClientConfig.getD TlsConfig.zero) with
        rootCAs := some (env.poolAddCert
          ((t.tlsClientConfig.getD TlsConfig.zero).rootCAs.getD []) cert) } } } := by
  unfold Client.AddCACert
  rw [judge2genPool_eq ht]
  simp [Client.onTlsConfig, onRootCAs]

theorem AddCACert_nil {c : Client} {t : Transport} (env : Env) (ht : c.transport = some t) :
    c.AddCACert env none = .error .nilCertificate := by
  unfold Client.AddCACert
  rw [judge2genPool_eq ht]
  simp [Client.onTlsConfig, onRootCAs]

/-! ### Allocation is kept, and allocated builders do not panic -/

theorem Allocated_of_step {c c1 : Client} (ha : c.Allocated) (h : c.TransportStep c1) :
    c1.Allocated :=
  ⟨by rw [h.header]; exact ha.1, h.2⟩

theorem Allocated_keepOriginErr (c : Client) (err : Option GoError) (ha : c.Allocated) :
    (c.keepOriginErr err).Allocated := by
  unfold Client.keepOriginErr
  split <;> exact ha

theorem Allocated_keepOrigionErr {c : Client} (err : Option GoError) (ha : c.Allocated) :
    (c.keepOrigionErr err).Allocated := by
  unfold Client.keepOrigionErr
  split <;> exact ha

theorem Allocated_getFullUrl {c : Client} (env : Env) (ha : c.Allocated) :
    (c.getFullUrl env).1.Allocated := by
  unfold Client.getFullUrl
  split
  · exact Allocated_keepOriginErr _ _ ha
  · exact ha

/-- A call that returns on an allocated builder leaves an allocated builder. -/
theorem apply_allocated {env : Env} {c c1 : Client} {call : Call} (ha : c.Allocated)
    (h : call.apply env c = .ok c1) : c1.Allocated := by
  cases call with
  | Get _ | Post _ | Put _ | Head _ | Delete _ | Patch _ | Options _ | ReNew _ _ =>
    simp only [Call.apply, Except.ok.injEq] at h
    subst h
    exact ⟨rfl, ha.2⟩
  | AppendQuery key value =>
    simp only [Call.apply, Except.ok.injEq] at h
    subst h
    unfold Client.AppendQuery
    split <;> exact ha
  | AppendQueries queries =>
    simp only [Call.apply, Except.ok.injEq] at h
    subst h
    unfold Client.AppendQueries
    split <;> exact ha
  | ContentType _ | Timeout _ | DialTimeout _ | KeepAliveTimeout _ =>
    simp only [Call.apply, Except.ok.injEq] at h
    subst h
    exact ha
  | Header k v =>
    simp only [Call.apply, Client.Header] at h
    split at h
    · simp only [Except.ok.injEq] at h
      subst h
      exact Allocated_keepOriginErr _ _ ha
    · cases hh : c.header with
      | none => simp [hh] at h
      | some hm =>
        simp only [hh, Except.ok.injEq] at h
        subst h
        exact ⟨rfl, ha.2⟩
  | Body body =>
    simp only [Call.apply, Except.ok.injEq] at h
    subst h
    cases body with
    | str value => exact ha
    | bytes value => exact ha
    | other d => exact Allocated_keepOriginErr { c with body := _ } _ ha
  | IdleConnTimeout _ | TLSHandshakeTimeout _ | ExpectContinueTimeout _ | TlsConfig _ =>
    exact Allocated_of_step ha (onTransport_step h)
  | InsecureSkipVerify skip => exact Allocated_of_step ha (InsecureSkipVerify_step h)
  | AddCAFile cafile =>
    rcases AddCAFile_cases h with ⟨err, _, hc⟩ | hs
    · rw [hc]
      exact Allocated_keepOrigionErr _ ha
    · exact Allocated_of_step ha hs
  | AddCAContent cacontent => exact Allocated_of_step ha (AddCAContent_step h)
  | AddCACert cert => exact Allocated_of_step ha (AddCACert_step h)
  | CertPool pool => exact Allocated_of_step ha (CertPool_step h)
  | AddCertFile cert key =>
    rcases AddCertFile_cases h with ⟨err, hc⟩ | hs
    · rw [hc]
      exact Allocated_keepOrigionErr _ ha
    · exact Allocated_of_step ha hs
  | AddCertContent certContent keyContent =>
    rcases AddCertContent_cases h with ⟨err, _, hc⟩ | hs
    · rw [hc]
      exact Allocated_keepOrigionErr _ ha
    · exact Allocated_of_step ha hs
  | AddCert cert => exact Allocated_of_step ha (AddCert_step h)
  | DebugString =>
    simp only [Call.apply, Client.DebugString, Except.ok.injEq] at h
    subst h
    exact Allocated_getFullUrl env ha

/-- On an allocated builder every call returns, except `AddCACert(nil)`, which panics
inside the library on its nil argument. -/
theorem apply_ok_of_allocated (env : Env) {c : Client} {call : Call} (ha : c.Allocated)
    (hn : call ≠ .AddCACert none) : ∃ c1, call.apply env c = .ok c1 := by
  obtain ⟨hh, ht⟩ := ha
  obtain ⟨t, ht⟩ := Option.isSome_iff_exists.mp ht
  obtain ⟨hm, hh⟩ := Option.isSome_iff_exists.mp hh
  cases call with
  | Get _ | Post _ | Put _ | Head _ | Delete _ | Patch _ | Options _ | ReNew _ _
  | AppendQuery _ _ | AppendQueries _ | ContentType _ | Body _ | Timeout _ | DialTimeout _
  | KeepAliveTimeout _ | DebugString => exact ⟨_, rfl⟩
  | Header k v =>
    simp only [Call.apply, Client.Header, hh]
    split
    · exact ⟨_, rfl⟩
    · exact ⟨_, rfl⟩
  | IdleConnTimeout _ | TLSHandshakeTimeout _ | ExpectContinueTimeout _ | TlsConfig _ =>
    exact onTransport_ok _ (by simp [ht])
  | InsecureSkipVerify skip => exact ⟨_, InsecureSkipVerify_eq skip ht⟩
  | AddCAFile cafile =>
    simp only [Call.apply, Client.AddCAFile]
    cases env.readFile cafile with
    | error err => exact ⟨_, rfl⟩
    | ok content => exact ⟨_, AddCAContent_eq env content ht⟩
  | AddCAContent cacontent => exact ⟨_, AddCAContent_eq env cacontent ht⟩
  | AddCACert cert =>
    cases cert with
    | none => exact absurd rfl hn
    | some x => exact ⟨_, AddCACert_eq env x ht⟩
  | CertPool pool => exact ⟨_, CertPool_eq pool ht⟩
  | AddCertFile cert key =>
    simp only [Call.apply, Client.AddCertFile]
    cases env.readFile cert with
    | error err => exact ⟨_, rfl⟩
    | ok certCotent =>
      cases env.readFile key with
      | error err => exact ⟨_, rfl⟩
      | ok keyContent =>
        simp only [Client.AddCertContent]
        cases env.x509KeyPair certCotent keyContent with
        | error err => exact ⟨_, rfl⟩
        | ok pair => exact ⟨_, AddCert_eq pair ht⟩
  | AddCertContent certContent keyContent =>
    simp only [Call.apply, Client.AddCertContent]
    cases env.x509KeyPair certContent keyContent with
    | error err => exact ⟨_, rfl⟩
    | ok pair => exact ⟨_, AddCert_eq pair ht⟩
  | AddCert cert => exact ⟨_, AddCert_eq cert ht⟩

theorem runCalls_ok_of_allocated (env : Env) (calls : List Call) :
    ∀ c : Client, c.Allocated → (∀ call ∈ calls, call ≠ .AddCACert none) →
      ∃ c1, runCalls env c calls = .ok c1 ∧ c1.Allocated := by
  induction calls with
  | nil => intro c ha _; exact ⟨c, rfl, ha⟩
  | cons call rest ih =>
    intro c ha hn
    obtain ⟨c0, h0⟩ := apply_ok_of_allocated env ha (hn call (List.mem_cons_self _ _))
    obtain ⟨c1, h1, a1⟩ := ih c0 (apply_allocated ha h0)
      (fun x hx => hn x (List.mem_cons_of_mem _ hx))
    exact ⟨c1, by simp [runCalls, h0, h1], a1⟩

theorem runCalls_keeps_err (env : Env) (e : GoError) (calls : List Call) :
    ∀ c c1 : Client, c.err = some e → (∀ call ∈ calls, call.isReset = false) →
      runCalls env c calls = .ok c1 → c1.err = some e := by
  induction calls with
  | nil =>
    intro c c1 he _ h
    simp only [runCalls, Except.ok.injEq] at h
    subst h
    exact he
  | cons call rest ih =>
    intro c c1 he hr h
    unfold runCalls at h
    cases h0 : call.apply env c with
    | error p => simp [h0] at h
    | ok c0 =>
      simp only [h0] at h
      exact ih c0 c1 (apply_keeps_err he (hr call (List.mem_cons_self _ _)) h0)
        (fun x hx => hr x (List.mem_cons_of_mem _ hx)) h

/-- C3: the `err` field is first-write-wins.  From a builder whose `err` is an error `e`,
a chain of calls with no reset in it (calls that fail themselves included: `Header` with
an empty key, `Body` with a value that cannot be marshalled, `AddCertContent` with
material that does not parse, `DebugString` on a url that does not parse) ends with
`err` still `e`, and `Go` then returns `e` without running a step.  The chain does end:
on an allocated builder it returns whenever no call passes a nil certificate to
`AddCACert`. -/
theorem err_first_write_wins (env : Env) (c : Client) (e : GoError) (calls : List Call)
    (he : c.err = some e) (hr : ∀ call ∈ calls, call.isReset = false) :
    (∀ c1, runCalls env c calls = .ok c1 →
      c1.err = some e ∧
      c1.Go env = .ok { client := c1, response := none, err := some e, steps := [] }) ∧
    (c.Allocated → (∀ call ∈ calls, call ≠ .AddCACert none) →
      ∃ c1, runCalls env c calls = .ok c1) := by
  constructor
  · intro c1 h
    have h1 := runCalls_keeps_err env e calls c c1 he hr h
    refine ⟨h1, ?_⟩
    simp [Client.Go, h1]
  · intro ha hn
    obtain ⟨c1, h1, _⟩ := runCalls_ok_of_allocated env calls c ha hn
    exact ⟨c1, h1⟩

theorem err_first_write_wins_witness :
    stickyBuilder.err = some ⟨"first"⟩ ∧
    (∀ call ∈ failingCalls, call.isReset = false) ∧
    (∃ c1, runCalls sampleEnv stickyBuilder failingCalls = .ok c1) ∧
    ((∀ c1, runCalls sampleEnv stickyBuilder failingCalls = .ok c1 →
      c1.err = some ⟨"first"⟩ ∧
      c1.Go sampleEnv =
        .ok { client := c1, response := none, err := some ⟨"first"⟩, steps := [] }) ∧
    (stickyBuilder.Allocated → (∀ call ∈ failingCalls, call ≠ .AddCACert none) →
      ∃ c1, runCalls sampleEnv stickyBuilder failingCalls = .ok c1)) :=
  have h := err_first_write_wins sampleEnv stickyBuilder ⟨"first"⟩ failingCalls rfl
    (by decide)
  ⟨rfl, by decide, h.2 (by decide) (by decide), h⟩

/-- C4: each of `Get`, `Post`, `Put`, `Head`, `Delete`, `Patch`, `Options` is `ReNew` with
its method name, and `ReNew(method, url)` leaves the builder with that method and url, an
empty allocated header map, content type `""`, a nil body and a nil `err`, while the three
timeouts, the transport (its TLS configuration included) and the queries map are as
before; so `getFullUrl` on the reset builder merges the queries appended before the
reset into the new url. -/
theorem ReNew_resets_request_state (env : Env) (c : Client) (url : String) :
    (c.Get url = c.ReNew "GET" url ∧ c.Post url = c.ReNew "POST" url ∧
     c.Put url = c.ReNew "PUT" url ∧ c.Head url = c.ReNew "HEAD" url ∧
     c.Delete url = c.ReNew "DELETE" url ∧ c.Patch url = c.ReNew "PATCH" url ∧
     c.Options url = c.ReNew "OPTIONS" url) ∧
    ∀ method : String,
      (c.ReNew method url).method = method ∧
      (c.ReNew method url).url = url ∧
      (c.ReNew method url).header = some [] ∧
      (c.ReNew method url).contentType = "" ∧
      (c.ReNew method url).body = none ∧
      (c.ReNew method url).err = none ∧
      (c.ReNew method url).timeout = c.timeout ∧
      (c.ReNew method url).dialTimeout = c.dialTimeout ∧
      (c.ReNew method url).keepAliveTimeout = c.keepAliveTimeout ∧
      (c.ReNew method url).transport = c.transport ∧
      (c.ReNew method url).queries = c.queries ∧
      (c.ReNew method url).getFullUrl env =
        (match env.urlParse url with
         | .error err => ({ c.ReNew method url with err := some err }, err.text)
         | .ok u =>
           (c.ReNew method url, env.urlString { u with
              rawQuery := env.valuesEncode
                (mergeQueries (env.urlQuery u) (mapEntries c.queries)) })) := by
  refine ⟨⟨rfl, rfl, rfl, rfl, rfl, rfl, rfl⟩, fun method => ?_⟩
  refine ⟨rfl, rfl, rfl, rfl, rfl, rfl, rfl, rfl, rfl, rfl, rfl, ?_⟩
  cases h : env.urlParse url with
  | error err => simp [Client.getFullUrl, Client.ReNew, Client.keepOriginErr, h]
  | ok u => simp [Client.getFullUrl, Client.ReNew, h]

/-! ### Query parameters -/

theorem MultiMap.get_add_self (m : MultiMap) (k v : String) :
    MultiMap.get (MultiMap.add m k v) k = MultiMap.get m k ++ [v] := by
  induction m with
  | nil => simp [MultiMap.add, MultiMap.get]
  | cons kvs rest ih =>
    obtain ⟨k1, vs⟩ := kvs
    by_cases hk : k1 = k
    · simp [MultiMap.add, MultiMap.get, hk]
    · simp [MultiMap.add, MultiMap.get, hk, ih]

theorem MultiMap.get_add_other (m : MultiMap) (k v k2 : String) (h : k2 ≠ k) :
    MultiMap.get (MultiMap.add m k v) k2 = MultiMap.get m k2 := by
  induction m with
  | nil => simp [MultiMap.add, MultiMap.get, Ne.symm h]
  | cons kvs rest ih =>
    obtain ⟨k1, vs⟩ := kvs
    by_cases hk : k1 = k
    · subst hk
      simp [MultiMap.add, MultiMap.get, Ne.symm h]
    · by_cases hk2 : k1 = k2
      · subst hk2
        simp [MultiMap.add, MultiMap.get, h]
      · simp [MultiMap.add, MultiMap.get, hk, hk2, ih]

theorem MultiMap.mem_get_add (m : MultiMap) (k v k2 v2 : String)
    (h : v2 ∈ MultiMap.get m k2) : v2 ∈ MultiMap.get (MultiMap.add m k v) k2 := by
  by_cases hk : k2 = k
  · subst hk
    rw [MultiMap.get_add_self]
    exact List.mem_append_left _ h
  · rw [MultiMap.get_add_other m k v k2 hk]
    exact h

/-- The merge loop drops nothing that is already in the query. -/
theorem mergeQueries_keeps (entries : List (String × String)) :
    ∀ (q : MultiMap) (k v : String), v ∈ MultiMap.get q k →
      v ∈ MultiMap.get (mergeQueries q entries) k := by
  induction entries with
  | nil => intro q k v h; exact h
  | cons kv rest ih =>
    intro q k v h
    exact ih (MultiMap.add q kv.1 kv.2) k v (MultiMap.mem_get_add q kv.1 kv.2 k v h)

/-- The merge loop adds every entry it visits. -/
theorem mergeQueries_adds (entries : List (String × String)) :
    ∀ (q : MultiMap) (k v : String), (k, v) ∈ entries →
      v ∈ MultiMap.get (mergeQueries q entries) k := by
  induction entries with
  | nil => intro q k v h; simp at h
  | cons kv rest ih =>
    intro q k v h
    rcases List.mem_cons.mp h with h1 | h1
    · subst h1
      refine mergeQueries_keeps rest (MultiMap.add q k v) k v ?_
      rw [MultiMap.get_add_self]
      simp
    · exact ih (MultiMap.add q kv.1 kv.2) k v h1

theorem GoMap.mem_of_get (m : GoMap) (k v : String) (h : GoMap.get m k = some v) :
    (k, v) ∈ m := by
  induction m with
  | nil => simp [GoMap.get] at h
  | cons kv rest ih =>
    obtain ⟨k1, v1⟩ := kv
    by_cases hk : k1 = k
    · simp [GoMap.get, hk] at h
      subst hk h
      exact List.mem_cons_self _ _
    · simp [GoMap.get, hk] at h
      exact List.mem_cons_of_mem _ (ih h)

theorem GoMap.get_append (m1 m2 : GoMap) (k : String) :
    GoMap.get (m1 ++ m2) k =
      (match GoMap.get m1 k with
       | some v => some v
       | none => GoMap.get m2 k) := by
  induction m1 with
  | nil => simp [GoMap.get]
  | cons kv rest ih =>
    obtain ⟨k1, v1⟩ := kv
    by_cases hk : k1 = k
    · simp [GoMap.get, hk]
    · simp [GoMap.get, hk, ih]

/-- After the loop of `AppendQueries` a key holds the last value the loop wrote for it,
or its old value when the loop wrote none. -/
theorem get_setAll (entries : List (String × String)) :
    ∀ (q : GoMap) (k : String),
      GoMap.get (setAll q entries) k =
        (match GoMap.get entries.reverse k with
         | some v => some v
         | none => GoMap.get q k) := by
  induction entries with
  | nil => intro q k; simp [setAll, GoMap.get]
  | cons kv rest ih =>
    intro q k
    obtain ⟨k1, v1⟩ := kv
    have hstep : setAll q ((k1, v1) :: rest) = setAll (GoMap.set q k1 v1) rest := rfl
    rw [hstep, ih, List.reverse_cons, GoMap.get_append]
    cases GoMap.get rest.reverse k with
    | some v => rfl
    | none =>
      by_cases hk : k1 = k
      · subst hk
        simp [GoMap.get, GoMap.get_set_self]
      · have hk2 : k ≠ k1 := fun h => hk h.symm
        simp [GoMap.get, hk, GoMap.get_set_other q k1 v1 k hk2]

/-- One query call: the key it adds holds the added value, every other key is as before;
the url is not touched and the call returns. -/
theorem apply_query (env : Env) (c : Client) {call : Call} (hq : call.isQuery = true) :
    ∃ c1, call.apply env c = .ok c1 ∧ c1.url = c.url ∧
      ∀ k, c1.queryGet k =
        (match call.added k with
         | some v => some v
         | none => c.queryGet k) := by
  cases call with
  | AppendQuery key value =>
    refine ⟨c.AppendQuery key value, rfl, ?_, ?_⟩
    · unfold Client.AppendQuery
      split <;> rfl
    · intro k
      unfold Client.AppendQuery Client.queryGet Call.added
      cases hc : c.queries with
      | none =>
        by_cases hk : key = k
        · simp [mapEntries, GoMap.get, hk]
        · simp [mapEntries, GoMap.get, hk]
      | some q =>
        by_cases hk : key = k
        · subst hk
          simp [mapEntries, GoMap.get_set_self]
        · have hk2 : k ≠ key := fun h => hk h.symm
          simp [mapEntries, hk, GoMap.get_set_other q key value k hk2]
  | AppendQueries queries =>
    refine ⟨c.AppendQueries queries, rfl, ?_, ?_⟩
    · unfold Client.AppendQueries
      split <;> rfl
    · intro k
      unfold Client.AppendQueries Client.queryGet Call.added
      by_cases hl : mapLen queries = 0
      · have he : mapEntries queries = [] := List.length_eq_zero.mp hl
        simp [hl, he, GoMap.get]
      · simp only [hl, if_false]
        cases hc : c.queries with
        | none => simp [mapEntries, get_setAll]
        | some q => simp [mapEntries, get_setAll]
  | _ => simp [Call.isQuery] at hq

theorem runCalls_query (env : Env) (calls : List Call) :
    ∀ c : Client, (∀ call ∈ calls, call.isQuery = true) →
      ∃ c1, runCalls env c calls = .ok c1 ∧ c1.url = c.url ∧
        ∀ k, c1.queryGet k =
          (match lastAdded calls k with
           | some v => some v
           | none => c.queryGet k) := by
  induction calls with
  | nil => intro c _; exact ⟨c, rfl, rfl, fun k => rfl⟩
  | cons call rest ih =>
    intro c hq
    obtain ⟨c0, h0, u0, g0⟩ := apply_query env c (hq call (List.mem_cons_self _ _))
    obtain ⟨c1, h1, u1, g1⟩ := ih c0 (fun x hx => hq x (List.mem_cons_of_mem _ hx))
    refine ⟨c1, by simp [runCalls, h0, h1], by rw [u1, u0], fun k => ?_⟩
    rw [g1 k, g0 k]
    simp only [lastAdded]
    cases lastAdded rest k with
    | some v => rfl
    | none => rfl

/-- C5, as stated, fails: on `New().Get("http://h/?a=0")` the calls `AppendQuery("a", "1")`
and `AppendQuery("a", "2")` both add a pair, the resolved url is `http://h/?a=0&a=2`, and
its query holds `0` and `2` under `a` but not the added value `1`. -/
theorem added_pair_missing_from_url :
    ∃ c1 u, runCalls sampleEnv queryBuilder sameKeyCalls = .ok c1 ∧
      sampleEnv.urlParse c1.url = .ok u ∧
      (c1.getFullUrl sampleEnv).2 = "http://h/?a=0&a=2" ∧
      Call.AppendQuery "a" "1" ∈ sameKeyCalls ∧
      MultiMap.get (mergeQueries (sampleEnv.urlQuery u) (mapEntries c1.queries)) "a"
        = ["0", "2"] ∧
      "1" ∉ MultiMap.get (mergeQueries (sampleEnv.urlQuery u) (mapEntries c1.queries)) "a" :=
  ⟨_, _, rfl, rfl, by decide, by decide, by decide, by decide⟩

/-- C5, amended: on a builder whose url parses to `u`, a chain of `AppendQuery` and
`AppendQueries` calls returns, and `getFullUrl` then changes no field and returns the url
whose raw query encodes the merged values; under every key `k` the merged values hold the
value added by the last call of the chain that added `k`, and every value the query of the
base url holds under `k`, a key the chain added included. -/
theorem getFullUrl_merges_last_added (env : Env) (c : Client) (calls : List Call) (u : URL)
    (hq : ∀ call ∈ calls, call.isQuery = true) (hu : env.urlParse c.url = .ok u) :
    ∃ c1, runCalls env c calls = .ok c1 ∧
      c1.getFullUrl env = (c1, env.urlString { u with
        rawQuery := env.valuesEncode
          (mergeQueries (env.urlQuery u) (mapEntries c1.queries)) }) ∧
      (∀ k v, lastAdded calls k = some v →
        v ∈ MultiMap.get (mergeQueries (env.urlQuery u) (mapEntries c1.queries)) k) ∧
      (∀ k v, v ∈ MultiMap.get (env.urlQuery u) k →
        v ∈ MultiMap.get (mergeQueries (env.urlQuery u) (mapEntries c1.queries)) k) := by
  obtain ⟨c1, h1, u1, g1⟩ := runCalls_query env calls c hq
  refine ⟨c1, h1, ?_, ?_, ?_⟩
  · simp [Client.getFullUrl, u1, hu]
  · intro k v hl
    have hg : c1.queryGet k = some v := by rw [g1 k, hl]
    exact mergeQueries_adds _ _ k v (GoMap.mem_of_get _ k v hg)
  · intro k v hv
    exact mergeQueries_keeps _ _ k v hv

theorem getFullUrl_merges_last_added_witness :
    (∀ call ∈ sameKeyCalls, call.isQuery = true) ∧
    sampleEnv.urlParse queryBuilder.url = .ok queryBuilderUrl ∧
    lastAdded sameKeyCalls "a" = some "2" ∧
    ∃ c1, runCalls sampleEnv queryBuilder sameKeyCalls = .ok c1 ∧
      c1.getFullUrl sampleEnv = (c1, sampleEnv.urlString { queryBuilderUrl with
        rawQuery := sampleEnv.valuesEncode
          (mergeQueries (sampleEnv.urlQuery queryBuilderUrl) (mapEntries c1.queries)) }) ∧
      (∀ k v, lastAdded sameKeyCalls k = some v →
        v ∈ MultiMap.get
          (mergeQueries (sampleEnv.urlQuery queryBuilderUrl) (mapEntries c1.queries)) k) ∧
      (∀ k v, v ∈ MultiMap.get (sampleEnv.urlQuery queryBuilderUrl) k →
        v ∈ MultiMap.get
          (mergeQueries (sampleEnv.urlQuery queryBuilderUrl) (mapEntries c1.queries)) k) :=
  ⟨by decide, rfl, by decide,
    getFullUrl_merges_last_added sampleEnv queryBuilder sameKeyCalls queryBuilderUrl
      (by decide) rfl⟩

/-! ### `Body` -/

/-- The conversion `[]byte(s)` is the UTF-8 encoding of the characters of `s`, one after
the other. -/
theorem stringBytes_eq_encode (s : String) :
    stringBytes s = s.data.flatMap String.utf8EncodeChar := rfl

/-- The conversion `[]byte(s)` has as many bytes as the string. -/
theorem stringBytes_length (s : String) : (stringBytes s).length = s.utf8ByteSize :=
  String.size_toUTF8 s

/-- On ASCII characters the encoding is one byte per character, the code of the
character: nothing is added, quoted or escaped. -/
theorem encode_ascii (cs : List Char) (h : ∀ ch ∈ cs, ch.val ≤ 0x7f) :
    cs.flatMap String.utf8EncodeChar = cs.map (fun ch => ch.val.toUInt8) := by
  induction cs with
  | nil => rfl
  | cons ch rest ih =>
    have h1 : ch.val ≤ 0x7f := h ch (List.mem_cons_self _ _)
    have h2 := ih (fun x hx => h x (List.mem_cons_of_mem _ hx))
    simp only [List.flatMap_cons, List.map_cons, h2]
    simp [String.utf8EncodeChar, h1]

/-- C6: `Body(x)` sets the body by the dynamic type of `x` and touches no field but `body`
and `err`.  For a string the body is the bytes of the string, its UTF-8 encoding and
nothing else: as many bytes as the string has, and for an ASCII string one byte per
character, the code of that character, with no quote or escape added.  For a byte slice
the body is the slice itself.  For any other value whose marshalling succeeds it is the
marshalled bytes, so the map with the one entry `ttKey: ttValue`, marshalled by the
library to the 19 bytes of its JSON text, gives exactly these 19 bytes.  In these three
cases `err` is as before.  When marshalling fails with an error `e`, `err` becomes `e` if
it was nil and stays as it was otherwise. -/
theorem Body_sets_body_by_type (env : Env) (c : Client) :
    (∀ s : String, c.Body env (.str s) = { c with body := some (stringBytes s) }) ∧
    (∀ s : String,
      (c.Body env (.str s)).body = some (s.data.flatMap String.utf8EncodeChar) ∧
      ((c.Body env (.str s)).body.getD []).length = s.utf8ByteSize) ∧
    (∀ s : String, (∀ ch ∈ s.data, ch.val ≤ 0x7f) →
      (c.Body env (.str s)).body = some (s.data.map (fun ch => ch.val.toUInt8))) ∧
    (c.Body env (.str "Hello world!")).body =
      some [72, 101, 108, 108, 111, 32, 119, 111, 114, 108, 100, 33] ∧
    (∀ b : Option Bytes, c.Body env (.bytes b) = { c with body := b }) ∧
    (∀ (d : Dyn) (js : Option Bytes), env.jsonMarshal d = (js, none) →
      c.Body env (.other d) = { c with body := js }) ∧
    (env.jsonMarshal (.stringMap [("ttKey", "ttValue")]) =
        (some (stringBytes "\x7b\"ttKey\":\"ttValue\"\x7d"), none) →
      c.Body env (.other (.stringMap [("ttKey", "ttValue")])) =
        { c with
          body := some [123, 34, 116, 116, 75, 101, 121, 34, 58, 34,
            116, 116, 86, 97, 108, 117, 101, 34, 125] }) ∧
    (∀ (d : Dyn) (js : Option Bytes) (e : GoError), env.jsonMarshal d = (js, some e) →
      (c.err = none → (c.Body env (.other d)).err = some e) ∧
      (c.err ≠ none → (c.Body env (.other d)).err = c.err)) := by
  have hok : ∀ (d : Dyn) (js : Option Bytes), env.jsonMarshal d = (js, none) →
      c.Body env (.other d) = { c with body := js } := by
    intro d js h
    simp only [Client.Body, h, Client.keepOriginErr]
    split
    · rename_i hn
      cases c
      simp_all
    · rfl
  have htext : stringBytes "\x7b\"ttKey\":\"ttValue\"\x7d" =
      [123, 34, 116, 116, 75, 101, 121, 34, 58, 34,
        116, 116, 86, 97, 108, 117, 101, 34, 125] := by decide
  refine ⟨fun s => rfl, fun s => ⟨rfl, stringBytes_length s⟩, ?_, ?_, fun b => rfl, hok,
    ?_, ?_⟩
  · intro s hs
    show some (stringBytes s) = _
    rw [stringBytes_eq_encode, encode_ascii s.data hs]
  · show some (stringBytes "Hello world!") = _
    decide
  · intro h
    rw [hok _ _ h, htext]
  · intro d js e h
    simp only [Client.Body, h, Client.keepOriginErr]
    constructor
    · intro hn
      simp [hn]
    · intro hn
      simp [hn]

/-- C6 on the examples of `TestPost`: the text `Hello world!` is sent as its twelve
character codes, the map with the one entry `ttKey: ttValue` as the 19 bytes of its JSON
text, and a channel, which cannot be marshalled, records the error of the library. -/
theorem Body_sets_body_by_type_witness :
    (∀ ch ∈ "Hello world!".data, ch.val ≤ 0x7f) ∧
    (New.Body sampleEnv (.str "Hello world!")).body =
      some ("Hello world!".data.map (fun ch => ch.val.toUInt8)) ∧
    (New.Body sampleEnv (.str "Hello world!")).body =
      some [72, 101, 108, 108, 111, 32, 119, 111, 114, 108, 100, 33] ∧
    sampleEnv.jsonMarshal (.stringMap [("ttKey", "ttValue")]) =
      (some (stringBytes "\x7b\"ttKey\":\"ttValue\"\x7d"), none) ∧
    New.Body sampleEnv (.other (.stringMap [("ttKey", "ttValue")])) =
      { New with
        body := some [123, 34, 116, 116, 75, 101, 121, 34, 58, 34,
          116, 116, 86, 97, 108, 117, 101, 34, 125] } ∧
    sampleEnv.jsonMarshal .chan = (none, some ⟨"json: unsupported type: chan int"⟩) ∧
    (New.Body sampleEnv (.other .chan)).err = some ⟨"json: unsupported type: chan int"⟩ :=
  ⟨by decide,
    (Body_sets_body_by_type sampleEnv New).2.2.1 "Hello world!" (by decide),
    (Body_sets_body_by_type sampleEnv New).2.2.2.1,
    rfl,
    (Body_sets_body_by_type sampleEnv New).2.2.2.2.2.2.1 rfl,
    rfl,
    ((Body_sets_body_by_type sampleEnv New).2.2.2.2.2.2.2 .chan none _ rfl).1 rfl⟩

/-! ### The request `makeRequest` builds -/

theorem MultiMap.get_put_self (m : MultiMap) (k v : String) :
    MultiMap.get (MultiMap.put m k v) k = [v] := by
  induction m with
  | nil => simp [MultiMap.put, MultiMap.get]
  | cons kvs rest ih =>
    obtain ⟨k1, vs⟩ := kvs
    by_cases hk : k1 = k
    · simp [MultiMap.put, MultiMap.get, hk]
    · simp [MultiMap.put, MultiMap.get, hk, ih]

theorem MultiMap.get_put_other (m : MultiMap) (k v k2 : String) (h : k2 ≠ k) :
    MultiMap.get (MultiMap.put m k v) k2 = MultiMap.get m k2 := by
  induction m with
  | nil => simp [MultiMap.put, MultiMap.get, Ne.symm h]
  | cons kvs rest ih =>
    obtain ⟨k1, vs⟩ := kvs
    by_cases hk : k1 = k
    · subst hk
      simp [MultiMap.put, MultiMap.get, Ne.symm h]
    · by_cases hk2 : k1 = k2
      · subst hk2
        simp [MultiMap.put, MultiMap.get, h]
      · simp [MultiMap.put, MultiMap.get, hk, hk2, ih]

theorem MultiMap.has_put (m : MultiMap) (k v k2 : String) :
    MultiMap.has (MultiMap.put m k v) k2 = true ↔ k2 = k ∨ MultiMap.has m k2 = true := by
  induction m with
  | nil =>
    simp only [MultiMap.put, MultiMap.has]
    constructor
    · intro h
      by_cases hk : k = k2
      · exact Or.inl hk.symm
      · simp [hk] at h
    · rintro (h | h)
      · simp [h]
      · simp at h
  | cons kvs rest ih =>
    obtain ⟨k1, vs⟩ := kvs
    by_cases hk : k1 = k
    · subst hk
      by_cases hk2 : k1 = k2
      · simp [MultiMap.put, MultiMap.has, hk2]
      · have hk3 : ¬ k2 = k1 := fun h => hk2 h.symm
        simp [MultiMap.put, MultiMap.has, hk2, hk3]
    · by_cases hk2 : k1 = k2
      · subst hk2
        simp [MultiMap.put, MultiMap.has, hk]
      · simp [MultiMap.put, MultiMap.has, hk, hk2, ih]

/-- The header loop leaves alone a key that no visited entry writes. -/
theorem setHeaders_get_other (entries : List (String × String)) (ck : String) :
    ∀ h : MultiMap, (∀ kv ∈ entries, CanonicalMIMEHeaderKey kv.1 ≠ ck) →
      MultiMap.get (setHeaders h entries) ck = MultiMap.get h ck := by
  induction entries with
  | nil => intro h _; rfl
  | cons kv rest ih =>
    intro h hne
    have hstep : setHeaders h (kv :: rest) = setHeaders (headerSet h kv.1 kv.2) rest := rfl
    rw [hstep, ih _ (fun x hx => hne x (List.mem_cons_of_mem _ hx))]
    exact MultiMap.get_put_other h _ kv.2 ck
      (fun heq => hne kv (List.mem_cons_self _ _) heq.symm)

/-- After the header loop, a key written by some entry, all of whose writers agree on
the value `v`, holds exactly `v`. -/
theorem setHeaders_get_agree (entries : List (String × String)) (ck v : String) :
    ∀ h : MultiMap, (∃ kv ∈ entries, CanonicalMIMEHeaderKey kv.1 = ck) →
      (∀ kv ∈ entries, CanonicalMIMEHeaderKey kv.1 = ck → kv.2 = v) →
      MultiMap.get (setHeaders h entries) ck = [v] := by
  induction entries with
  | nil => intro h hex _; obtain ⟨kv, hm, _⟩ := hex; simp at hm
  | cons kv rest ih =>
    intro h hex hag
    have hstep : setHeaders h (kv :: rest) = setHeaders (headerSet h kv.1 kv.2) rest := rfl
    rw [hstep]
    by_cases hr : ∃ x ∈ rest, CanonicalMIMEHeaderKey x.1 = ck
    · exact ih _ hr (fun x hx => hag x (List.mem_cons_of_mem _ hx))
    · have hne : ∀ x ∈ rest, CanonicalMIMEHeaderKey x.1 ≠ ck :=
        fun x hx heq => hr ⟨x, hx, heq⟩
      rw [setHeaders_get_other rest ck _ hne]
      obtain ⟨x, hx, hxk⟩ := hex
      rcases List.mem_cons.mp hx with h1 | h1
      · subst h1
        have hv : x.2 = v := hag x (List.mem_cons_self _ _) hxk
        unfold headerSet
        rw [hxk, hv]
        exact MultiMap.get_put_self h ck v
      · exact absurd ⟨x, h1, hxk⟩ hr

/-- The keys of the request header after the loop: those there before and the canonical
form of every visited key. -/
theorem setHeaders_has (entries : List (String × String)) (ck : String) :
    ∀ h : MultiMap, MultiMap.has (setHeaders h entries) ck = true ↔
      (MultiMap.has h ck = true ∨ ∃ kv ∈ entries, CanonicalMIMEHeaderKey kv.1 = ck) := by
  induction entries with
  | nil => intro h; simp [setHeaders]
  | cons kv rest ih =>
    intro h
    have hstep : setHeaders h (kv :: rest) = setHeaders (headerSet h kv.1 kv.2) rest := rfl
    rw [hstep, ih, headerSet, MultiMap.has_put]
    constructor
    · rintro ((h1 | h1) | ⟨x, hx, hxk⟩)
      · exact Or.inr ⟨kv, List.mem_cons_self _ _, h1.symm⟩
      · exact Or.inl h1
      · exact Or.inr ⟨x, List.mem_cons_of_mem _ hx, hxk⟩
    · rintro (h1 | ⟨x, hx, hxk⟩)
      · exact Or.inl (Or.inr h1)
      · rcases List.mem_cons.mp hx with h2 | h2
        · subst h2
          exact Or.inl (Or.inl hxk.symm)
        · exact Or.inr ⟨x, h2, hxk⟩

theorem validMethod_ne_empty {method : String} (h : validMethod method = true) :
    method ≠ "" := by
  intro he
  subst he
  simp [validMethod] at h

/-- The request `makeRequest` returns when the url parses, the method is valid and the
library parses the resolved url. -/
theorem makeRequest_eq {env : Env} {c : Client} {u u2 : URL}
    (hu : env.urlParse c.url = .ok u) (hm : validMethod c.method = true)
    (hfull : env.urlParse (c.getFullUrl env).2 = .ok u2) :
    c.makeRequest env = (c, .ok
      { method := c.method
        url := env.removeEmptyPort u2
        header := setHeaders (headerSet [] HeaderContentType c.contentType)
          (mapEntries c.header)
        body := c.body.getD [] }) := by
  have hc : (c.getFullUrl env).1 = c := by simp [Client.getFullUrl, hu]
  have hne := validMethod_ne_empty hm
  simp [Client.makeRequest, newRequest, hne, hm, hfull, hc]

/-- With no recorded error and an allocated transport, `Go` runs all three steps on the
request `makeRequest` built and returns what the transport returns. -/
theorem Go_eq {env : Env} {c : Client} {t : Transport} {req : Request}
    (he : c.err = none) (ht : c.transport = some t)
    (hreq : c.makeRequest env = (c, .ok req)) :
    ∃ t1 : Transport,
      t1 = { t with
        dialContext := some { timeout := c.dialTimeout, keepAlive := c.keepAliveTimeout } } ∧
      c.Go env = .ok
        { client := { c with transport := some t1 }
          response := (env.send { transport := some t1, timeout := c.timeout } req).1
          err := (env.send { transport := some t1, timeout := c.timeout } req).2
          steps := [.makeRequest, .makeClient, .send req] } := by
  refine ⟨_, rfl, ?_⟩
  simp [Client.Go, he, hreq, Client.makeClient, ht]

/-- C7, as stated, fails: after `New().Get("http://h/").Header("key", "a").Header("Key", "b")`
the header map holds the entries `key: a` and `Key: b`, yet the request built has one
header `Key`; when the loop visits `key` first, the header read under `key` is `b`, not
`a`, and when it visits `Key` first, the header read under `Key` is `a`, not `b`. -/
theorem header_entry_overwritten :
    runCalls sampleEnv New [.Get "http://h/", .Header "key" "a", .Header "Key" "b"]
      = .ok collidingBuilder ∧
    collidingBuilder.err = none ∧
    validMethod collidingBuilder.method = true ∧
    sampleEnv.urlParse collidingBuilder.url = .ok ⟨"http://h/", "", ""⟩ ∧
    (∃ req, (collidingBuilder.makeRequest sampleEnv).2 = .ok req ∧
      ("key", "a") ∈ mapEntries collidingBuilder.header ∧
      req.header = [("Content-Type", [""]), ("Key", ["b"])] ∧
      headerGet req.header "key" = "b") ∧
    (∃ req, (collidingBuilderSwapped.makeRequest sampleEnv).2 = .ok req ∧
      ("Key", "b") ∈ mapEntries collidingBuilderSwapped.header ∧
      req.header = [("Content-Type", [""]), ("Key", ["a"])] ∧
      headerGet req.header "Key" = "a") :=
  ⟨rfl, rfl, by decide, rfl,
    ⟨_, rfl, by decide, by decide, by decide⟩,
    ⟨_, rfl, by decide, by decide, by decide⟩⟩

/-- C7, amended: on a builder with `err = nil` whose url parses, whose method is valid and
whose resolved url the library parses, `makeRequest` changes no field and returns a
request with the method of the builder, the url parsed from the result of `getFullUrl`,
the body bytes of the builder, and, for every entry `(k, v)` of the header map such that
every entry whose key has the canonical form of `k` carries the value `v`, a header `k`
whose value is `v`; `Go` on an allocated transport builds the request and the client and
sends that request. -/
theorem makeRequest_builds_from_builder (env : Env) (c : Client) (u u2 : URL)
    (he : c.err = none) (hu : env.urlParse c.url = .ok u)
    (hm : validMethod c.method = true)
    (hfull : env.urlParse (c.getFullUrl env).2 = .ok u2) :
    ∃ req, c.makeRequest env = (c, .ok req) ∧
      req.method = c.method ∧
      req.url = env.removeEmptyPort u2 ∧
      req.body = c.body.getD [] ∧
      (∀ k v, (k, v) ∈ mapEntries c.header →
        (∀ kv ∈ mapEntries c.header,
          CanonicalMIMEHeaderKey kv.1 = CanonicalMIMEHeaderKey k → kv.2 = v) →
        headerGet req.header k = v) ∧
      (∀ t, c.transport = some t →
        ∃ out, c.Go env = .ok out ∧ out.steps = [.makeRequest, .makeClient, .send req]) := by
  refine ⟨_, makeRequest_eq hu hm hfull, rfl, rfl, rfl, ?_, ?_⟩
  · intro k v hmem hag
    unfold headerGet
    simp only
    rw [setHeaders_get_agree (mapEntries c.header) (CanonicalMIMEHeaderKey k) v _
      ⟨(k, v), hmem, rfl⟩ hag]
    rfl
  · intro t ht
    obtain ⟨t1, _, hgo⟩ := Go_eq he ht (makeRequest_eq hu hm hfull)
    exact ⟨_, hgo, rfl⟩

theorem makeRequest_builds_from_builder_witness :
    testGetBuilder.err = none ∧
    sampleEnv.urlParse testGetBuilder.url = .ok testGetUrl ∧
    validMethod testGetBuilder.method = true ∧
    sampleEnv.urlParse (testGetBuilder.getFullUrl sampleEnv).2 = .ok testGetUrl ∧
    testGetBuilder.method = "GET" ∧
    ∃ req, testGetBuilder.makeRequest sampleEnv = (testGetBuilder, .ok req) ∧
      req.method = testGetBuilder.method ∧
      req.url = sampleEnv.removeEmptyPort testGetUrl ∧
      req.body = testGetBuilder.body.getD [] ∧
      (∀ k v, (k, v) ∈ mapEntries testGetBuilder.header →
        (∀ kv ∈ mapEntries testGetBuilder.header,
          CanonicalMIMEHeaderKey kv.1 = CanonicalMIMEHeaderKey k → kv.2 = v) →
        headerGet req.header k = v) ∧
      (∀ t, testGetBuilder.transport = some t →
        ∃ out, testGetBuilder.Go sampleEnv = .ok out ∧
          out.steps = [.makeRequest, .makeClient, .send req]) :=
  ⟨rfl, rfl, by decide, rfl, rfl,
    makeRequest_builds_from_builder sampleEnv testGetBuilder testGetUrl testGetUrl
      rfl rfl (by decide) rfl⟩

theorem canonical_content_type : CanonicalMIMEHeaderKey HeaderContentType = "Content-Type" := by
  decide

/-- C8, as stated, fails: `New().Get("http://h/")` has an empty content type and an empty
header map, yet the request `makeRequest` builds has a `Content-Type` entry, whose value
is the empty string. -/
theorem empty_content_type_is_set :
    plainBuilder.contentType = "" ∧
    plainBuilder.header = some [] ∧
    ∃ req, plainBuilder.makeRequest sampleEnv = (plainBuilder, .ok req) ∧
      req.header = [("Content-Type", [""])] ∧
      MultiMap.has req.header "Content-Type" = true :=
  ⟨rfl, rfl, _, rfl, by decide, by decide⟩

/-- A request `http.NewRequest` returns has an empty header. -/
theorem newRequest_header {env : Env} {method url : String} {body : Bytes} {req : Request}
    (h : newRequest env method url body = .ok req) : req.header = [] := by
  unfold newRequest at h
  simp only at h
  by_cases hv : validMethod (if method = "" then "GET" else method) = true
  · cases hp : env.urlParse url with
    | error err => simp [hv, hp] at h
    | ok u =>
      simp only [hv, hp, Bool.not_true, Bool.false_eq_true, if_false, Except.ok.injEq] at h
      rw [← h]
  · simp [hv] at h

/-- The header of every request `makeRequest` returns: `Content-Type` set first, then the
loop over the header map. -/
theorem makeRequest_header {env : Env} {c : Client} {req : Request}
    (h : (c.makeRequest env).2 = .ok req) :
    req.header =
      setHeaders (headerSet [] HeaderContentType c.contentType) (mapEntries c.header) := by
  unfold Client.makeRequest at h
  cases hn : newRequest env c.method (c.getFullUrl env).2 (c.body.getD []) with
  | error err => simp [hn] at h
  | ok req0 =>
    simp only [hn, Except.ok.injEq] at h
    rw [← h, newRequest_header hn]

/-- A request is built whenever the method is empty (the library reads it as `GET`) or
valid and the library parses the string `getFullUrl` returns. -/
theorem makeRequest_ok {env : Env} {c : Client} {u2 : URL}
    (hm : c.method = "" ∨ validMethod c.method = true)
    (hfull : env.urlParse (c.getFullUrl env).2 = .ok u2) :
    ∃ req, (c.makeRequest env).2 = .ok req := by
  have hv : validMethod (if c.method = "" then "GET" else c.method) = true := by
    rcases hm with h | h
    · rw [if_pos h]
      decide
    · rw [if_neg (validMethod_ne_empty h)]
      exact h
  simp [Client.makeRequest, newRequest, hv, hfull]

/-- C8, amended: every request `makeRequest` builds has a `Content-Type` entry, on every
builder, the one `New` returns included.  When no key of the header map has the canonical
form `Content-Type`, its one value is the content type of the builder: the value `t`
after `ContentType(t)`, the empty string when no content type was set.  The keys of the
request header are exactly `Content-Type` and the canonical forms of the keys of the
header map.  A request is built whenever the method is empty or valid and the library
parses the resolved url. -/
theorem makeRequest_always_sets_content_type (env : Env) (c : Client) :
    (∀ req, (c.makeRequest env).2 = .ok req →
      MultiMap.has req.header "Content-Type" = true ∧
      ((∀ kv ∈ mapEntries c.header, CanonicalMIMEHeaderKey kv.1 ≠ "Content-Type") →
        MultiMap.get req.header "Content-Type" = [c.contentType]) ∧
      (∀ ck, MultiMap.has req.header ck = true ↔
        (ck = "Content-Type" ∨
          ∃ kv ∈ mapEntries c.header, CanonicalMIMEHeaderKey kv.1 = ck))) ∧
    (∀ u2, (c.method = "" ∨ validMethod c.method = true) →
      env.urlParse (c.getFullUrl env).2 = .ok u2 →
      ∃ req, (c.makeRequest env).2 = .ok req) ∧
    (∀ t, (c.ContentType t).contentType = t ∧ (c.ContentType t).header = c.header) := by
  have hkeys : ∀ ck, MultiMap.has
      (setHeaders (headerSet [] HeaderContentType c.contentType) (mapEntries c.header)) ck
        = true ↔
      (ck = "Content-Type" ∨ ∃ kv ∈ mapEntries c.header, CanonicalMIMEHeaderKey kv.1 = ck) := by
    intro ck
    rw [setHeaders_has, headerSet, MultiMap.has_put, canonical_content_type]
    simp [MultiMap.has]
  refine ⟨?_, ?_, fun t => ⟨rfl, rfl⟩⟩
  · intro req hreq
    rw [makeRequest_header hreq]
    refine ⟨(hkeys "Content-Type").mpr (Or.inl rfl), ?_, hkeys⟩
    intro hno
    rw [setHeaders_get_other _ _ _ hno, headerSet, canonical_content_type]
    exact MultiMap.get_put_self [] "Content-Type" c.contentType
  · intro u2 hm hfull
    exact makeRequest_ok hm hfull

/-- C8 on three builders: `New()` itself and `New().ReNew("", "http://h/")`, whose empty
method the library reads as `GET`, build a request whose `Content-Type` entry holds the
empty string; `New().Post("http://h/").ContentType("application/json")` builds one whose
entry holds `application/json`. -/
theorem makeRequest_always_sets_content_type_witness :
    (∃ req, (New.makeRequest sampleEnv).2 = .ok req ∧ req.method = "GET" ∧
      req.header = [("Content-Type", [""])] ∧
      MultiMap.has req.header "Content-Type" = true ∧
      MultiMap.get req.header "Content-Type" = [New.contentType]) ∧
    (∃ req, ((New.ReNew "" "http://h/").makeRequest sampleEnv).2 = .ok req ∧
      req.method = "GET" ∧
      MultiMap.has req.header "Content-Type" = true ∧
      MultiMap.get req.header "Content-Type" = [""]) ∧
    (∃ req, (jsonBuilder.makeRequest sampleEnv).2 = .ok req ∧
      MultiMap.has req.header "Content-Type" = true ∧
      MultiMap.get req.header "Content-Type" = ["application/json"] ∧
      (∀ ck, MultiMap.has req.header ck = true ↔
        (ck = "Content-Type" ∨
          ∃ kv ∈ mapEntries jsonBuilder.header, CanonicalMIMEHeaderKey kv.1 = ck))) :=
  ⟨⟨_, rfl, rfl, rfl,
      ((makeRequest_always_sets_content_type sampleEnv New).1 _ rfl).1,
      ((makeRequest_always_sets_content_type sampleEnv New).1 _ rfl).2.1 (by decide)⟩,
    ⟨_, rfl, rfl,
      ((makeRequest_always_sets_content_type sampleEnv (New.ReNew "" "http://h/")).1 _ rfl).1,
      ((makeRequest_always_sets_content_type sampleEnv (New.ReNew "" "http://h/")).1 _
        rfl).2.1 (by decide)⟩,
    ⟨_, rfl,
      ((makeRequest_always_sets_content_type sampleEnv jsonBuilder).1 _ rfl).1,
      ((makeRequest_always_sets_content_type sampleEnv jsonBuilder).1 _ rfl).2.1 (by decide),
      ((makeRequest_always_sets_content_type sampleEnv jsonBuilder).1 _ rfl).2.2⟩⟩

/-! ### Failing calls -/

theorem keepOriginErr_eq (c : Client) (err : Option GoError) :
    c.keepOriginErr err = { c with err := if c.err = none then err else c.err } := by
  unfold Client.keepOriginErr
  split
  · rename_i h; simp [h]
  · rename_i h; simp [h]

theorem keepOrigionErr_eq (c : Client) (err : Option GoError) :
    c.keepOrigionErr err = { c with err := if c.err = none then err else c.err } := by
  unfold Client.keepOrigionErr
  split
  · rename_i h; simp [h]
  · rename_i h; simp [h]

/-- C9, as stated, fails: on `New().Post("http://h/").Body("post text")` the body is the
bytes of the text; the call `Body` with a channel fails in the marshaller, which returns a
nil slice with its error, and the body of the builder is nil afterwards. -/
theorem failing_Body_clears_body :
    textBuilder.body = some (stringBytes "post text") ∧
    sampleEnv.jsonMarshal .chan = (none, some ⟨"json: unsupported type: chan int"⟩) ∧
    (textBuilder.Body sampleEnv (.other .chan)).err
      = some ⟨"json: unsupported type: chan int"⟩ ∧
    (textBuilder.Body sampleEnv (.other .chan)).body = none ∧
    (textBuilder.Body sampleEnv (.other .chan)).body ≠ textBuilder.body :=
  ⟨rfl, rfl, rfl, rfl, by intro h; cases h⟩

/-- C9, amended: a failing `Header` (empty key or value), a failing `AddCAFile` or
`AddCertFile` (a file cannot be read) and a failing `AddCertContent` (the key pair does
not parse) return with every field but `err` as before, `err` taking the error when it
was nil; a failing `Body` (the marshaller returns the slice `js` and an error) changes
`err` in the same way and the body, which becomes `js`, and no other field. -/
theorem failing_call_changes_err_only (env : Env) (c : Client) :
    (∀ k v : String, (k = "" ∨ v = "") →
      c.Header k v = .ok { c with
        err := if c.err = none then some ⟨"invalid header, key or value is empty"⟩
          else c.err }) ∧
    (∀ (d : Dyn) (js : Option Bytes) (e : GoError), env.jsonMarshal d = (js, some e) →
      c.Body env (.other d) =
        { c with body := js, err := if c.err = none then some e else c.err }) ∧
    (∀ (cafile : String) (e : GoError), env.readFile cafile = .error e →
      c.AddCAFile env cafile = .ok { c with err := if c.err = none then some e else c.err }) ∧
    (∀ (cert key : String) (e : GoError), env.readFile cert = .error e →
      c.AddCertFile env cert key =
        .ok { c with err := if c.err = none then some e else c.err }) ∧
    (∀ (cert key : String) (content : Bytes) (e : GoError),
      env.readFile cert = .ok content → env.readFile key = .error e →
      c.AddCertFile env cert key =
        .ok { c with err := if c.err = none then some e else c.err }) ∧
    (∀ (certContent keyContent : Bytes) (e : GoError),
      env.x509KeyPair certContent keyContent = .error e →
      c.AddCertContent env certContent keyContent =
        .ok { c with err := if c.err = none then some e else c.err }) := by
  refine ⟨?_, ?_, ?_, ?_, ?_, ?_⟩
  · intro k v hkv
    simp [Client.Header, hkv, keepOriginErr_eq]
  · intro d js e h
    simp [Client.Body, h, keepOriginErr_eq]
  · intro cafile e h
    simp [Client.AddCAFile, h, keepOrigionErr_eq]
  · intro cert key e h
    simp [Client.AddCertFile, h, keepOrigionErr_eq]
  · intro cert key content e h1 h2
    simp [Client.AddCertFile, h1, h2, keepOrigionErr_eq]
  · intro certContent keyContent e h
    simp [Client.AddCertContent, h, keepOrigionErr_eq]

theorem failing_call_changes_err_only_witness :
    sampleEnv.jsonMarshal .chan = (none, some ⟨"json: unsupported type: chan int"⟩) ∧
    sampleEnv.readFile "ca.pem" = .error ⟨"open ca.pem: no such file or directory"⟩ ∧
    sampleEnv.x509KeyPair [] []
      = .error ⟨"tls: failed to find any PEM data in certificate input"⟩ ∧
    textBuilder.Header "" "x" = .ok { textBuilder with
      err := some ⟨"invalid header, key or value is empty"⟩ } ∧
    textBuilder.Body sampleEnv (.other .chan) = { textBuilder with
      body := none, err := some ⟨"json: unsupported type: chan int"⟩ } ∧
    textBuilder.AddCAFile sampleEnv "ca.pem" = .ok { textBuilder with
      err := some ⟨"open ca.pem: no such file or directory"⟩ } ∧
    textBuilder.AddCertContent sampleEnv [] [] = .ok { textBuilder with
      err := some ⟨"tls: failed to find any PEM data in certificate input"⟩ } :=
  ⟨rfl, rfl, rfl,
    (failing_call_changes_err_only sampleEnv textBuilder).1 "" "x" (Or.inl rfl),
    (failing_call_changes_err_only sampleEnv textBuilder).2.1 .chan none _ rfl,
    (failing_call_changes_err_only sampleEnv textBuilder).2.2.1 "ca.pem" _ rfl,
    (failing_call_changes_err_only sampleEnv textBuilder).2.2.2.2.2 [] [] _ rfl⟩

/-! ### Builders made by `New` -/

theorem New_allocated : New.Allocated := ⟨rfl, rfl⟩

/-- On an allocated builder the only panic is the one the library raises on a nil
certificate. -/
theorem apply_error_of_allocated {env : Env} {c : Client} {call : Call} {p : GoPanic}
    (ha : c.Allocated) (h : call.apply env c = .error p) :
    call = .AddCACert none ∧ p = .nilCertificate := by
  by_cases hc : call = .AddCACert none
  · subst hc
    obtain ⟨t, ht⟩ := Option.isSome_iff_exists.mp ha.2
    have h2 : Call.apply env c (.AddCACert none) = .error .nilCertificate :=
      AddCACert_nil env ht
    rw [h2] at h
    simp only [Except.error.injEq] at h
    exact ⟨rfl, h.symm⟩
  · obtain ⟨c1, h1⟩ := apply_ok_of_allocated env ha hc
    rw [h1] at h
    cases h

theorem runCalls_allocated_cases (env : Env) (calls : List Call) :
    ∀ c : Client, c.Allocated →
      (match runCalls env c calls with
       | .ok c1 => c1.Allocated
       | .error p => p = .nilCertificate ∧ Call.AddCACert none ∈ calls) := by
  induction calls with
  | nil => intro c ha; exact ha
  | cons call rest ih =>
    intro c ha
    unfold runCalls
    cases h0 : call.apply env c with
    | error p =>
      obtain ⟨hc, hp⟩ := apply_error_of_allocated ha h0
      exact ⟨hp, by rw [hc]; exact List.mem_cons_self _ _⟩
    | ok c0 =>
      have h1 := ih c0 (apply_allocated ha h0)
      simp only
      cases h2 : runCalls env c0 rest with
      | error p =>
        rw [h2] at h1
        exact ⟨h1.1, List.mem_cons_of_mem _ h1.2⟩
      | ok c1 =>
        rw [h2] at h1
        exact h1

/-- C10: a chain of calls on `New()` either returns a builder whose header map and
transport are allocated, or stops in the one panic the library raises when `AddCACert` is
given a nil certificate; it never stops on a nil transport, a nil TLS configuration, a nil
trust store or a write to a nil header map.  On the builder `c` the chain returns, with
transport `t`: `InsecureSkipVerify`, `CertPool` and `AddCert` write into the TLS
configuration of `t`, or into a fresh zero configuration when `t` has none (as after
`TlsConfig(nil)`); `AddCAContent` and `AddCACert` moreover write into the trust store of
that configuration, or into a fresh empty pool when it has none (as after
`CertPool(nil)`); and every further call returns an allocated builder, except
`AddCACert(nil)`. -/
theorem New_chain_stays_allocated (env : Env) (calls : List Call) :
    (match runCalls env New calls with
     | .error p => p = .nilCertificate ∧ Call.AddCACert none ∈ calls
     | .ok c =>
       c.Allocated ∧
       ∃ t, c.transport = some t ∧
         (∀ skip, c.InsecureSkipVerify skip = .ok { c with transport := some { t with
            tlsClientConfig := some { (t.tlsClientConfig.getD TlsConfig.zero) with
              insecureSkipVerify := skip } } }) ∧
         (∀ pool, c.CertPool pool = .ok { c with transport := some { t with
            tlsClientConfig := some { (t.tlsClientConfig.getD TlsConfig.zero) with
              rootCAs := pool } } }) ∧
         (∀ cert, c.AddCert cert = .ok { c with transport := some { t with
            tlsClientConfig := some { (t.tlsClientConfig.getD TlsConfig.zero) with
              certificates :=
                (t.tlsClientConfig.getD TlsConfig.zero).certificates ++ [cert] } } }) ∧
         (∀ content, c.AddCAContent env content = .ok { c with transport := some { t with
            tlsClientConfig := some { (t.tlsClientConfig.getD TlsConfig.zero) with
              rootCAs := some (env.appendCertsFromPEM
                ((t.tlsClientConfig.getD TlsConfig.zero).rootCAs.getD []) content) } } }) ∧
         (∀ cert, c.AddCACert env (some cert) = .ok { c with transport := some { t with
            tlsClientConfig := some { (t.tlsClientConfig.getD TlsConfig.zero) with
              rootCAs := some (env.poolAddCert
                ((t.tlsClientConfig.getD TlsConfig.zero).rootCAs.getD []) cert) } } }) ∧
         c.AddCACert env none = .error .nilCertificate ∧
         (∀ call, call ≠ Call.AddCACert none →
           ∃ c1, call.apply env c = .ok c1 ∧ c1.Allocated)) := by
  have h := runCalls_allocated_cases env calls New New_allocated
  cases hr : runCalls env New calls with
  | error p =>
    rw [hr] at h
    exact h
  | ok c =>
    rw [hr] at h
    obtain ⟨t, ht⟩ := Option.isSome_iff_exists.mp h.2
    refine ⟨h, t, ht, fun skip => InsecureSkipVerify_eq skip ht,
      fun pool => CertPool_eq pool ht, fun cert => AddCert_eq cert ht,
      fun content => AddCAContent_eq env content ht,
      fun cert => AddCACert_eq env cert ht, AddCACert_nil env ht, ?_⟩
    intro call hn
    obtain ⟨c1, h1⟩ := apply_ok_of_allocated env h hn
    exact ⟨c1, h1, apply_allocated h h1⟩

/-- C10 on a chain through `TlsConfig(nil)` and `CertPool(nil)`: the chain returns, the
later calls have allocated the TLS configuration and the trust store again, and the
builder it returns is allocated. -/
theorem New_chain_stays_allocated_witness :
    ∃ c t cfg, runCalls sampleEnv New nilChain = .ok c ∧
      c.transport = some t ∧ t.tlsClientConfig = some cfg ∧
      cfg.insecureSkipVerify = false ∧ cfg.rootCAs = some [⟨[1]⟩] ∧
      c.header = some [("Key", "Value")] ∧
      c.Allocated :=
  ⟨_, _, _, rfl, rfl, rfl, rfl, rfl, rfl, (New_chain_stays_allocated sampleEnv nilChain).1⟩

/-! ### A url that does not parse -/

/-- C11: when the url of the builder fails to parse with an error `e`, `getFullUrl`
returns the text of `e` as the url string and leaves every field as it was except `err`,
which becomes `e` when it was nil and stays as it was otherwise; `DebugString` leaves the
same state, its text starts with the line `[url]: ` followed by the text of `e`, and on a
builder with `err = nil` the `Go` that follows returns `e` with no step run, so nothing is
sent.  When the url parses, `getFullUrl` and `DebugString` change no field. -/
theorem getFullUrl_records_parse_error (env : Env) (c : Client) :
    (∀ e : GoError, env.urlParse c.url = .error e →
      c.getFullUrl env =
        ({ c with err := if c.err = none then some e else c.err }, e.text) ∧
      (c.DebugString env).1 = { c with err := if c.err = none then some e else c.err } ∧
      (c.DebugString env).2 =
        "[url]: " ++ e.text ++ "\n" ++
        "[method]: " ++ c.method ++ "\n" ++
        "[header]: " ++ env.fmtMap c.header ++ "\n" ++
        "[content type]:" ++ c.contentType ++ "\n" ++
        "[body]:" ++ env.fmtBytes c.body ++ "\n" ∧
      (c.err = none →
        (c.DebugString env).1.err = some e ∧
        (c.DebugString env).1.Go env =
          .ok { client := (c.DebugString env).1, response := none, err := some e,
                steps := [] })) ∧
    (∀ u : URL, env.urlParse c.url = .ok u →
      (c.getFullUrl env).1 = c ∧ (c.DebugString env).1 = c) := by
  constructor
  · intro e he
    have hg : c.getFullUrl env =
        ({ c with err := if c.err = none then some e else c.err }, e.text) := by
      simp [Client.getFullUrl, he, keepOriginErr_eq]
    refine ⟨hg, ?_, ?_, ?_⟩
    · simp [Client.DebugString, hg]
    · simp [Client.DebugString, hg]
    · intro hn
      have hd : (c.DebugString env).1.err = some e := by
        simp [Client.DebugString, hg, hn]
      refine ⟨hd, ?_⟩
      simp [Client.Go, hd]
  · intro u hu
    have hg : (c.getFullUrl env).1 = c := by simp [Client.getFullUrl, hu]
    exact ⟨hg, by simp [Client.DebugString, hg]⟩

theorem getFullUrl_records_parse_error_witness :
    sampleEnv.urlParse badUrlBuilder.url = .error badUrlError ∧
    badUrlBuilder.err = none ∧
    badUrlBuilder.getFullUrl sampleEnv =
      ({ badUrlBuilder with err := some badUrlError }, "parse \":bad\": missing protocol scheme") ∧
    (badUrlBuilder.DebugString sampleEnv).1.err = some badUrlError ∧
    (badUrlBuilder.DebugString sampleEnv).1.Go sampleEnv =
      .ok { client := (badUrlBuilder.DebugString sampleEnv).1, response := none,
            err := some badUrlError, steps := [] } ∧
    sampleEnv.urlParse stickyBuilder.url = .error badUrlError ∧
    (stickyBuilder.getFullUrl sampleEnv).1.err = some ⟨"first"⟩ ∧
    sampleEnv.urlParse plainBuilder.url = .ok plainUrl ∧
    (plainBuilder.getFullUrl sampleEnv).1 = plainBuilder ∧
    (plainBuilder.DebugString sampleEnv).1 = plainBuilder :=
  ⟨rfl, rfl,
    ((getFullUrl_records_parse_error sampleEnv badUrlBuilder).1 badUrlError rfl).1,
    (((getFullUrl_records_parse_error sampleEnv badUrlBuilder).1 badUrlError rfl).2.2.2 rfl).1,
    (((getFullUrl_records_parse_error sampleEnv badUrlBuilder).1 badUrlError rfl).2.2.2 rfl).2,
    rfl, rfl, rfl,
    ((getFullUrl_records_parse_error sampleEnv plainBuilder).2 plainUrl rfl).1,
    ((getFullUrl_records_parse_error sampleEnv plainBuilder).2 plainUrl rfl).2⟩

end Httpclient
